import Mathlib

/-!
Verification of the LUMI educational web client (mock-backend persistence,
course progression, calculus curriculum, Socratic debate, and Gemini service
fallbacks).  The definitions below are a shallow embedding of the TypeScript
sources: pure functions become Lean functions, React component state becomes
explicit state records with one step function per event handler, JavaScript
numbers used for scores become rationals, and the browser localStorage plus
JSON layer becomes an explicit string store with a verified model of
JSON.stringify / JSON.parse (numbers restricted to the integer fragment the
application stores).
-/

/-! ## Data model (src types: Flashcard, QuizQuestion, Comment, Course, HistoryRecord) -/

structure Flashcard where
  front : String
  back : String
  frontImage : Option String := none
  backImage : Option String := none
  videoUrl : Option String := none
  audioUrl : Option String := none
deriving DecidableEq

structure QuizQuestion where
  question : String
  options : List String
  answer : Nat
deriving DecidableEq

structure Comment where
  id : String
  author : String
  text : String
  timestamp : Int
deriving DecidableEq

inductive CourseType where
  | flashcard
  | video
  | mixed
deriving DecidableEq

inductive CardStyle where
  | aesthetic
  | ankiMinimal
deriving DecidableEq

structure Course where
  id : String
  title : String
  subject : String
  description : String
  type : CourseType
  cardStyle : Option CardStyle := none
  level : String
  duration : Option String := none
  speed : Option String := none
  content : List Flashcard
  quiz : Option (List QuizQuestion) := none
  roadmap : Option (List String) := none
  videoIntroUrl : Option String := none
  author : String
  isPublic : Option Bool := none
  likes : Option (List String) := none
  comments : Option (List Comment) := none
deriving DecidableEq

instance : Inhabited Course :=
  ⟨{ id := "", title := "", subject := "", description := "", type := .flashcard,
     level := "", content := [], author := "" }⟩

inductive HistoryAction where
  | viewed
  | completed
deriving DecidableEq

structure HistoryRecord where
  courseId : String
  timestamp : Int
  action : HistoryAction
deriving DecidableEq

/-! ## Shared data: ENGINEERING_FOLDER (geminiService.ts lines 570-609) -/

structure EngModule where
  title : String
  description : String
  cards : List Flashcard
deriving DecidableEq

def ENGINEERING_FOLDER : List EngModule :=
  [ { title := "Module 1: Partial Derivatives",
      description := "Definitions, physical meaning, notation, and engineering interpretation.",
      cards :=
        [ { front := "Define partial derivative.", back := "A partial derivative is the derivative of a multivariable function with respect to one variable while keeping all other variables constant." },
          { front := "Physical meaning of partial derivative.", back := "It represents the sensitivity of a system output to a single input parameter, assuming all other parameters remain unchanged." },
          { front := "Notation of partial derivatives.", back := "Common notations include ∂f/∂x, f_x, or D_x f." },
          { front := "Compute ∂/∂x (x²y + 3y²).", back := "Treat y as constant: ∂/∂x (x²y) = 2xy, ∂/∂x (3y²) = 0. Final answer: 2xy." },
          { front := "Engineering interpretation.", back := "Used in heat transfer, fluid mechanics, economics, and circuit analysis to isolate individual variable effects." } ] },
    { title := "Module 2: Chain Rule (Multivariable)",
      description := "Modeling systems where variables depend indirectly on other parameters.",
      cards :=
        [ { front := "State the multivariable chain rule.", back := "If z = f(x,y), where x = g(t) and y = h(t), then dz/dt = (∂z/∂x)(dx/dt) + (∂z/∂y)(dy/dt)." },
          { front := "Why is chain rule important?", back := "It models systems where variables depend indirectly on other parameters such as time or space." },
          { front := "Engineering relevance.", back := "Extensively used in control systems, robotics, thermodynamics, and machine learning backpropagation." } ] },
    { title := "Module 3: Extreme Values and Saddle Points",
      description := "Analysis of critical points and equilibrium in physical systems.",
      cards :=
        [ { front := "Define critical point.", back := "A point where all first-order partial derivatives of a function vanish." },
          { front := "Define saddle point.", back := "A point where the function has neither a maximum nor minimum but changes curvature direction." },
          { front := "Importance of saddle points.", back := "They represent unstable equilibrium points in physical and optimization systems." } ] },
    { title := "Module 4: Taylor’s Series",
      description := "Quadratic and Cubic Approximations for complex functions.",
      cards :=
        [ { front := "Purpose of Taylor series.", back := "To approximate complex functions locally using polynomials." },
          { front := "Quadratic Taylor approximation significance.", back := "Captures curvature and is crucial in optimization and stability analysis." },
          { front := "Cubic approximation advantage.", back := "Improves accuracy by capturing asymmetric behavior." } ] } ]

/-! ## SYSTEM_COURSES (geminiService.ts lines 613-676); `now` stands for Date.now() -/

def SYSTEM_COURSES (now : Int) : List Course :=
  (ENGINEERING_FOLDER.enum.map fun im =>
    { id := "lumi-sys-eng-mod" ++ toString (im.1 + 1),
      title := im.2.title,
      subject := "Engineering",
      description := im.2.description,
      type := .flashcard,
      level := "Undergraduate",
      duration := some "45 Min",
      speed := some "Intensive",
      author := "LUMI AI",
      cardStyle := some .ankiMinimal,
      content := im.2.cards,
      isPublic := some true,
      likes := some ["scholar", "curator"],
      comments := some [] }) ++
  [ { id := "lumi-sys-calc-001",
      title := "Calculus: Partial Differentiation",
      subject := "Mathematics",
      description := "A comprehensive, animated guide to multivariable calculus. Master the art of gradients, chain rules, and optimization in n-dimensional space through functional flashcards.",
      type := .flashcard,
      level := "Undergraduate",
      duration := some "5 Hours",
      speed := some "Intensive",
      author := "LUMI AI",
      roadmap := some ["Functions of Several Variables", "Partial Derivatives", "Tangent Planes", "The Chain Rule", "Directional Derivatives", "Gradient Vectors", "Max/Min Problems", "Lagrange Multipliers"],
      content :=
        [ { front := "Definition: ∂f/∂x", back := "The rate of change of f(x,y) with respect to x, while holding y constant. Geometrically, the slope of the trace curve on the plane y = constant." },
          { front := "The Gradient (∇f)", back := "A vector pointing in the direction of steepest ascent. ∇f = < f_x, f_y >. It is orthogonal to level curves." },
          { front := "Clairaut\x27s Theorem", back := "Symmetry of second derivatives: If f_xy and f_yx are continuous, then f_xy = f_yx." },
          { front := "Total Differential (dz)", back := "dz = (∂f/∂x)dx + (∂f/∂y)dy. Approximates the change in z for small changes in x and y." },
          { front := "Chain Rule (Case 1)", back := "If z = f(x,y), x=g(t), y=h(t), then dz/dt = (∂f/∂x)(dx/dt) + (∂f/∂y)(dy/dt)." },
          { front := "Directional Derivative (D_u f)", back := "Rate of change in direction of unit vector u. D_u f = ∇f • u." },
          { front := "Tangent Plane Equation", back := "z - z0 = f_x(x0,y0)(x-x0) + f_y(x0,y0)(y-y0). The linear approximation of the surface." },
          { front := "Critical Point", back := "A point (a,b) where ∇f(a,b) = 0 or does not exist. Candidates for local extrema." },
          { front := "Second Derivative Test", back := "Let D = f_xx * f_yy - (f_xy)^2. If D>0 and f_xx>0 -> Min. If D>0 and f_xx<0 -> Max. If D<0 -> Saddle Point." },
          { front := "Lagrange Multipliers", back := "To maximize f(x,y) subject to g(x,y)=k, solve system: ∇f = λ∇g and g(x,y)=k." } ],
      isPublic := some true,
      likes := some ["scholar", "novice"],
      comments := some
        [ { id := "c1", author := "scholar", text := "The section on Gradients is particularly illuminating.", timestamp := now - 1000000 } ] },
    { id := "lumi-sys-quant-002",
      title := "Quantum Physics: Wave Mechanics",
      subject := "Physics",
      description := "A multimedia journey into the quantum realm. Features video visualizations, audio lecture notes, and deep theoretical texts.",
      type := .mixed,
      level := "Undergraduate",
      duration := some "8 Hours",
      speed := some "Standard",
      author := "LUMI AI",
      videoIntroUrl := some "https://storage.googleapis.com/gtv-videos-bucket/sample/TearsOfSteel.mp4",
      roadmap := some ["Video: The Ultraviolet Catastrophe", "Audio Ref: Heisenberg Uncertainty", "Text: The Schrödinger Equation", "Simulation: Double Slit Experiment"],
      content := [],
      isPublic := some true,
      likes := some ["curator"],
      comments := some [] } ]

/-! ## Content and social operations on the stored course list
(the value persisted under the `lumi_db_courses` key) -/

/-- JavaScript String.prototype.startsWith, as a character-list check. -/
def strStartsWith (s p : String) : Bool :=
  p.toList.isPrefixOf s.toList

/-- Model of getCourses (geminiService.ts lines 768-780): user-stored courses
whose id carries the reserved system id start `lumi-sys-` are filtered out and
the SYSTEM_COURSES seed list, normalized with social fields, is prepended. -/
def getCourses (now : Int) (stored : List Course) : List Course :=
  let filteredUserCourses := stored.filter fun c => !(strStartsWith c.id "lumi-sys-")
  let normalizedSystem := (SYSTEM_COURSES now).map fun c =>
    { c with likes := some (c.likes.getD []),
             comments := some (c.comments.getD []),
             isPublic := some true }
  normalizedSystem ++ filteredUserCourses

/-- The like-list edit of toggleLikeCourse: remove the username if present,
append it otherwise (lines 815-819 and 829-833 of geminiService.ts). -/
def toggleLikes (likes : List String) (username : String) : List String :=
  if likes.contains username then likes.filter (fun u => u ≠ username)
  else likes ++ [username]

/-- Model of toggleLikeCourse (geminiService.ts lines 806-837).  A stored
course is edited in place; otherwise a copy of the matching SYSTEM_COURSES
seed with a fresh likes array is edited and pushed onto the stored list. -/
def toggleLikeCourse (now : Int) (stored : List Course) (courseId username : String) : List Course :=
  match stored.findIdx? (fun c => c.id == courseId) with
  | some i =>
      let course := stored.getD i default
      let likes := course.likes.getD []
      stored.set i { course with likes := some (toggleLikes likes username) }
  | none =>
      match (SYSTEM_COURSES now).find? (fun c => c.id == courseId) with
      | some sysCourse =>
          stored ++ [{ sysCourse with likes := some (toggleLikes (sysCourse.likes.getD []) username) }]
      | none => stored

/-- Model of addCommentToCourse (geminiService.ts lines 839-858). -/
def addCommentToCourse (now : Int) (stored : List Course) (courseId : String) (comment : Comment) : List Course :=
  match stored.findIdx? (fun c => c.id == courseId) with
  | some i =>
      let course := stored.getD i default
      stored.set i { course with comments := some (comment :: course.comments.getD []) }
  | none =>
      match (SYSTEM_COURSES now).find? (fun c => c.id == courseId) with
      | some sysCourse =>
          stored ++ [{ sysCourse with comments := some (comment :: sysCourse.comments.getD []) }]
      | none => stored

/-- Model of addToHistory (geminiService.ts lines 922-933) acting on the
per-user history map; `now` stands for Date.now(). -/
def addToHistory (allHistory : String → List HistoryRecord) (username courseId : String)
    (action : HistoryAction) (now : Int) : String → List HistoryRecord :=
  fun u =>
    if u = username then
      (({ courseId := courseId, timestamp := now, action := action } : HistoryRecord) ::
        (allHistory username).filter (fun h => h.courseId != courseId)).take 30
    else allHistory u

/-! ## CourseViewer progression state machine (src/components/CourseViewer.tsx)
Each React useState hook becomes a field; each handler becomes a function on
the state.  JavaScript numbers used for the quiz score become rationals. -/

namespace CourseViewer

inductive Level where
  | FLASHCARDS
  | QUIZ
  | APPLICATION
  | DEEP_DIVE
deriving DecidableEq

def Level.toNat : Level → Nat
  | .FLASHCARDS => 0
  | .QUIZ => 1
  | .APPLICATION => 2
  | .DEEP_DIVE => 3

structure State where
  currentLevel : Level := .FLASHCARDS
  maxUnlockedLevel : Level := .FLASHCARDS
  currentCard : Nat := 0
  isFlipped : Bool := false
  flashcards : List Flashcard := []
  quizQuestions : List QuizQuestion := []
  quizAnswers : List (Option Nat) := []
  quizSubmitted : Bool := false
  quizScore : ℚ := 0
  alerts : List String := []
deriving DecidableEq

/-- Model of unlockLevel (CourseViewer.tsx lines 44-49): raise
maxUnlockedLevel only for a strictly higher level, always switch the
current level. -/
def unlockLevel (level : Level) (s : State) : State :=
  let s' := if level.toNat > s.maxUnlockedLevel.toNat then { s with maxUnlockedLevel := level } else s
  { s' with currentLevel := level }

def handleFinishFlashcards (s : State) : State :=
  unlockLevel .QUIZ s

/-- Model of handleFinishQuiz (CourseViewer.tsx lines 55-61); the alert call
is modelled by pushing the alert text. -/
def handleFinishQuiz (s : State) : State :=
  if s.quizScore ≥ 60 then unlockLevel .APPLICATION s
  else { s with alerts := "You must score at least 60% to proceed. Review the flashcards and try again." :: s.alerts }

def handleFinishApplication (s : State) : State :=
  unlockLevel .DEEP_DIVE s

/-- handleFinishDeepDive records history and navigates back; it does not
change the progression state. -/
def handleFinishDeepDive (s : State) : State :=
  s

/-- The level buttons of the progression bar: navigation only when the level
is already unlocked (CourseViewer.tsx lines 154-160). -/
def selectLevel (level : Level) (s : State) : State :=
  if level.toNat ≤ s.maxUnlockedLevel.toNat then { s with currentLevel := level } else s

/-- JavaScript sparse-array assignment `newAns[qIndex] = optionIndex` on a
copy of quizAnswers: missing slots become holes (modelled as none). -/
def writeAnswer (l : List (Option Nat)) (i v : Nat) : List (Option Nat) :=
  (l ++ List.replicate (i + 1 - l.length) none).set i (some v)

def handleQuizSelect (qIndex optionIndex : Nat) (s : State) : State :=
  if s.quizSubmitted then s
  else { s with quizAnswers := writeAnswer s.quizAnswers qIndex optionIndex }

/-- Model of submitQuiz (CourseViewer.tsx lines 126-135): guard on answer
count, then score = (correct / total) * 100 with correct counting the
questions whose selected option index equals the question answer field. -/
def submitQuiz (s : State) : State :=
  if s.quizAnswers.length < s.quizQuestions.length then
    { s with alerts := "Please answer all questions." :: s.alerts }
  else
    let correct := s.quizQuestions.enum.countP fun iq => s.quizAnswers.getD iq.1 none == some iq.2.answer
    let score : ℚ := ((correct : ℚ) / (s.quizQuestions.length : ℚ)) * 100
    { s with quizScore := score, quizSubmitted := true }

def handleNextCard (s : State) : State :=
  { s with isFlipped := false, currentCard := (s.currentCard + 1) % s.flashcards.length }

/-- handlePrevCard computes (prev - 1 + length) % length; the addition is
re-associated as (prev + length) - 1 so that ℕ subtraction never truncates
(equal for every prev ≥ 0). -/
def handlePrevCard (s : State) : State :=
  { s with isFlipped := false, currentCard := ((s.currentCard + s.flashcards.length) - 1) % s.flashcards.length }

def flipCard (s : State) : State :=
  { s with isFlipped := !s.isFlipped }

def setQuiz (qs : List QuizQuestion) (s : State) : State :=
  { s with quizQuestions := qs }

/-- Every state-changing CourseViewer interaction, as one action type. -/
inductive Action where
  | finishFlashcards
  | finishQuiz
  | finishApplication
  | finishDeepDive
  | selectLevel (l : Level)
  | quizSelect (q o : Nat)
  | submitQuiz
  | nextCard
  | prevCard
  | flipCard
  | setQuiz (qs : List QuizQuestion)

def step (s : State) : Action → State
  | .finishFlashcards => handleFinishFlashcards s
  | .finishQuiz => handleFinishQuiz s
  | .finishApplication => handleFinishApplication s
  | .finishDeepDive => handleFinishDeepDive s
  | .selectLevel l => CourseViewer.selectLevel l s
  | .quizSelect q o => handleQuizSelect q o s
  | .submitQuiz => CourseViewer.submitQuiz s
  | .nextCard => handleNextCard s
  | .prevCard => handlePrevCard s
  | .flipCard => CourseViewer.flipCard s
  | .setQuiz qs => CourseViewer.setQuiz qs s

def run (s : State) (acts : List Action) : State :=
  acts.foldl step s

end CourseViewer

/-! ## Calculus curriculum (curriculumData: src/unnamed/part_002) and the
CalculusPage answer checking (src/unnamed/part_001). -/

inductive VisualType where
  | secantSlope
  | tangentSlope
  | areaUnderCurve
deriving DecidableEq

structure SliderConfig where
  label : String
  min : ℚ
  max : ℚ
  default : ℚ
  step : ℚ
deriving DecidableEq

inductive StepType where
  | observation
  | incantation
  | casting
  | mastery
deriving DecidableEq

structure Step where
  id : String
  type : StepType
  text : String
  latex : Option String := none
  visual : Option VisualType := none
  sliderConfig : Option SliderConfig := none
  question : Option String := none
  correctAnswer : Option String := none
  hint : Option String := none
deriving DecidableEq

structure Chapter where
  id : String
  title : String
  description : String
  steps : List Step
deriving DecidableEq

def CALCULUS_CURRICULUM : List Chapter :=
  [ { id := "limits",
      title := "The Limit",
      description := "The art of approaching the infinite without touching it.",
      steps :=
        [ { id := "l1-obs", type := .observation,
            text := "Behold the curve f(x) = x². We wish to find the slope at point P (x=1). Drag the slider to move point Q closer to P.",
            visual := some .secantSlope,
            sliderConfig := some { label := "Distance (h)", min := 0.01, max := 2, default := 1.5, step := 0.01 } },
          { id := "l1-inc", type := .incantation,
            text := "As the distance (h) shrinks to nothing, the Secant Line (cutting two points) becomes the Tangent Line (touching one point). We call this specific value the \"Limit\".",
            latex := some "\\lim_\x7bh \\to 0\x7d \\frac\x7bf(x+h) - f(x)\x7d\x7bh\x7d",
            visual := some .secantSlope,
            sliderConfig := some { label := "Distance (h)", min := 0.01, max := 2, default := 0.1, step := 0.01 } },
          { id := "l1-cast", type := .casting,
            text := "If f(x) = x², then f(1) = 1. If we move h=0.1 away, f(1.1) = 1.21. Calculate the \"rise over run\" (slope) for this small gap.",
            latex := some "\\frac\x7b1.21 - 1.0\x7d\x7b0.1\x7d = ?",
            question := some "Enter the slope:",
            correctAnswer := some "2.1",
            hint := some "Subtract the y-values (0.21) and divide by h (0.1)." } ] },
    { id := "derivatives",
      title := "The Derivative",
      description := "Instantaneous rate of change.",
      steps :=
        [ { id := "d1-obs", type := .observation,
            text := "The Derivative is simply the slope of that Tangent line we found earlier. Drag the slider to see how the slope changes as x increases.",
            visual := some .tangentSlope,
            sliderConfig := some { label := "Position (x)", min := -2, max := 2, default := 0, step := 0.1 } },
          { id := "d1-inc", type := .incantation,
            text := "For the curve f(x) = x², the slope is always exactly 2x. This \"function of slopes\" is denoted as f\x27(x).",
            latex := some "\\frac\x7bd\x7d\x7bdx\x7d(x^2) = 2x",
            visual := some .tangentSlope,
            sliderConfig := some { label := "Position (x)", min := -2, max := 2, default := 1, step := 0.1 } },
          { id := "d1-cast", type := .casting,
            text := "If the derivative of x² is 2x, what is the slope of the curve at x = 3?",
            latex := some "f\x27(3) = 2(3)",
            question := some "Calculate the slope:",
            correctAnswer := some "6",
            hint := some "Simply multiply the x-value by 2." } ] },
    { id := "integrals",
      title := "The Integral",
      description := "Accumulation of change over time.",
      steps :=
        [ { id := "i1-obs", type := .observation,
            text := "Differentiation cuts things up. Integration adds them back together. It is the area under the curve. Drag to add more rectangles (Riemann Sums).",
            visual := some .areaUnderCurve,
            sliderConfig := some { label := "Precision (N)", min := 1, max := 20, default := 4, step := 1 } },
          { id := "i1-inc", type := .incantation,
            text := "As the number of rectangles approaches infinity, the jagged approximation becomes the smooth exact area.",
            latex := some "\\int_\x7ba\x7d^\x7bb\x7d f(x) dx",
            visual := some .areaUnderCurve,
            sliderConfig := some { label := "Precision (N)", min := 1, max := 50, default := 20, step := 1 } },
          { id := "i1-cast", type := .casting,
            text := "The integral of 2x is x². Calculate the area under f(x)=2x from x=0 to x=3.",
            latex := some "[x^2]_0^3 = 3^2 - 0^2",
            question := some "Enter the area:",
            correctAnswer := some "9",
            hint := some "Square the upper bound (3) and subtract the square of the lower bound (0)." } ] } ]

/-- All steps of the calculus curriculum in page order. -/
def calculusSteps : List Step :=
  (CALCULUS_CURRICULUM.map Chapter.steps).flatten

/-- JavaScript String.prototype.trim, as a character-list computation:
drop whitespace from both ends. -/
def strTrim (s : String) : String :=
  String.mk (((s.toList.dropWhile Char.isWhitespace).reverse.dropWhile Char.isWhitespace).reverse)

inductive Feedback where
  | neutral
  | correct
  | wrong
deriving DecidableEq

/-- Model of checkAnswer (src/unnamed/part_001 lines 197-204).  The guard
`if (!step.correctAnswer) return` is falsy for a missing answer and for the
empty string; otherwise feedback is correct exactly when the trimmed input
equals the correctAnswer string. -/
def checkAnswer (step : Step) (userInput : String) (feedback : Feedback) : Feedback :=
  match step.correctAnswer with
  | none => feedback
  | some a =>
      if a = "" then feedback
      else if strTrim userInput = a then .correct
      else .wrong

/-- The disabled condition of the Next button (src/unnamed/part_001 lines
321-330): `step.question !== undefined && feedback !== 'correct'`. -/
def nextDisabled (step : Step) (feedback : Feedback) : Bool :=
  step.question.isSome && feedback ≠ .correct

/-! ## SocialPage debate hall: Socratic defense and numericals round
(src/unnamed/part_003).  The AI replies (opening challenge, rebuttals,
judgment, generated problem) reach the handlers as resolved promise values,
so they appear here as parameters of the step functions. -/

namespace SocialPage

inductive Role where
  | skeptic
  | user
deriving DecidableEq

def Role.other : Role → Role
  | .skeptic => .user
  | .user => .skeptic

structure Msg where
  role : Role
  text : String
deriving DecidableEq

inductive BattleState where
  | lobby
  | matchmaking
  | active
  | judging
  | results
deriving DecidableEq

structure JudgeResult where
  pass : Bool
  score : Int
  feedback : String
deriving DecidableEq

structure MathProblem where
  question : String
  options : List String
  correctIndex : Nat
  explanation : String
deriving DecidableEq

structure State where
  battleState : BattleState := .lobby
  socraticHistory : List Msg := []
  socraticTurn : Nat := 0
  socraticResult : Option JudgeResult := none
  judgeCalls : Nat := 0
  mathProblem : Option MathProblem := none
  selectedOption : Option Nat := none
  mathFeedback : Option Bool := none
  alerts : List String := []
deriving DecidableEq

/-- Model of startSocraticRound (src/unnamed/part_003 lines 200-209):
`opening` is the resolved generateSocraticChallenge text.  The judge-call
counter of this model is reset so that invocations per round can be
counted. -/
def startSocraticRound (opening : String) (s : State) : State :=
  { s with battleState := .active,
           socraticTurn := 1,
           socraticResult := none,
           socraticHistory := [{ role := .skeptic, text := opening }],
           judgeCalls := 0 }

/-- Model of submitSocraticAnswer (src/unnamed/part_003 lines 278-298)
together with the submitAnswer guard `battleState !== 'active'` (the input
row is only rendered in the active state).  `rebuttal` is the resolved
simulateSkepticTurn text and `judgment` the resolved judgeSocraticRound
value; the transient judging state collapses into the final results
state. -/
def submitSocraticAnswer (answer rebuttal : String) (judgment : JudgeResult) (s : State) : State :=
  if s.battleState ≠ .active then s
  else if strTrim answer = "" then s
  else
    let newHistory := s.socraticHistory ++ [{ role := .user, text := answer }]
    if s.socraticTurn < 3 then
      { s with socraticHistory := newHistory ++ [{ role := .skeptic, text := rebuttal }],
               socraticTurn := s.socraticTurn + 1 }
    else
      { s with socraticHistory := newHistory,
               battleState := .results,
               socraticResult := some judgment,
               judgeCalls := s.judgeCalls + 1 }

/-- A full Socratic round: the opening challenge followed by a sequence of
user submissions (answer, skeptic rebuttal, judgment if reached). -/
def runSocratic (opening : String) (s : State) (subs : List (String × String × JudgeResult)) : State :=
  subs.foldl (fun st sub => submitSocraticAnswer sub.1 sub.2.1 sub.2.2 st) (startSocraticRound opening s)

/-- Model of startNumericalRound (src/unnamed/part_003 lines 212-225):
`problem` is the resolved generateCalculusProblem value; a null problem
returns to the lobby and surfaces alert text. -/
def startNumericalRound (problem : Option MathProblem) (s : State) : State :=
  let s' := { s with battleState := .active, mathProblem := none,
                     selectedOption := none, mathFeedback := none }
  match problem with
  | some p => { s' with mathProblem := some p }
  | none => { s' with battleState := .lobby,
                      alerts := "The archives are silent on this topic right now." :: s'.alerts }

/-- Bool-valued check that a message list alternates roles starting from
`r`. -/
def altRoles (r : Role) : List Msg → Bool
  | [] => true
  | m :: rest => m.role == r && altRoles r.other rest

/-- The role expected at position `n` of an alternation starting from
`r`. -/
def roleAfter (r : Role) (n : Nat) : Role :=
  if n % 2 = 0 then r else r.other

/-- Invariant of a Socratic round after `n` accepted user submissions:
the chat alternates starting from the skeptic opening, the turn counter is
the capped submission count, the judge has run exactly on completion, and
the battle phase tracks completion. -/
def SocInv (opening : String) (n : Nat) (st : State) : Prop :=
  altRoles .skeptic st.socraticHistory = true
  ∧ st.socraticHistory.head? = some { role := Role.skeptic, text := opening }
  ∧ st.socraticTurn = min (n + 1) 3
  ∧ st.judgeCalls = (if 3 ≤ n then 1 else 0)
  ∧ st.socraticHistory.length = (if n < 3 then 2 * n + 1 else 6)
  ∧ st.battleState = (if n < 3 then BattleState.active else BattleState.results)

end SocialPage

/-! ## Gemini service generation operations (src/services/geminiService.ts).
Each operation performs one remote generateContent call inside try/catch.
The call outcome is a parameter: `failed = true` is a rejected remote call
(the catch path), otherwise `text` is `response.text` (none when absent).
JSON.parse plus structural conformance of the success path is abstracted as
a `parse` parameter, whose none covers the in-try parse exception. -/

/-- JavaScript `x || d` on an optional string: undefined and the empty
string both fall back to the default. -/
def stringOrDefault (text : Option String) (d : String) : String :=
  match text with
  | some s => if s = "" then d else s
  | none => d

def generateCoverImage (failed : Bool) (inlineData : Option String) : Option String :=
  if failed then none
  else inlineData.map (fun d => "data:image/png;base64," ++ d)

structure BattleAnswer where
  user : String
  answer : String
deriving DecidableEq

structure BattleJudgment where
  user : String
  score : Int
  feedback : String
deriving DecidableEq

def generateQuiz (failed : Bool) (text : Option String)
    (parse : String → Option (List QuizQuestion)) : List QuizQuestion :=
  if failed then []
  else match parse (stringOrDefault text "[]") with
    | some v => v
    | none => []

def personalizeFlashcards (failed : Bool) (text : Option String)
    (parse : String → Option (List Flashcard)) : Option (List Flashcard) :=
  if failed then none
  else parse (stringOrDefault text "[]")

def generateApplicationInsight (failed : Bool) (text : Option String) : String :=
  if failed then "Could not retrieve application data."
  else stringOrDefault text "The practical applications are vast but currently obscured."

def generateDeepDive (failed : Bool) (text : Option String) : String :=
  if failed then "Could not retrieve deep dive data."
  else stringOrDefault text "The deeper mysteries remain hidden."

def generateBattleRound (topic : String) (failed : Bool) (text : Option String) : String :=
  if failed then "Discuss the implications of " ++ topic ++ "."
  else stringOrDefault (text.map strTrim) "Analyze the significance of this topic."

def simulateOpponentTurn (failed : Bool) (text : Option String) : String :=
  if failed then "An interesting point."
  else stringOrDefault (text.map strTrim) "I must contemplate this further."

/-- Model of judgeBattleRound (geminiService.ts lines 241-273): the catch
path resolves to score 50 with the placeholder feedback for every answer. -/
def judgeBattleRound (failed : Bool) (text : Option String)
    (parse : String → Option (List BattleJudgment)) (answers : List BattleAnswer) : List BattleJudgment :=
  if failed then
    answers.map fun a => { user := a.user, score := 50, feedback := "The wind whispers silence." }
  else match parse (stringOrDefault text "[]") with
    | some v => v
    | none =>
        answers.map fun a => { user := a.user, score := 50, feedback := "The wind whispers silence." }

def generateSocraticChallenge (failed : Bool) (text : Option String) : String :=
  if failed then "Why does this concept exist?"
  else stringOrDefault (text.map strTrim) "Explain this concept to me, for I find it logically flawed."

def simulateSkepticTurn (failed : Bool) (text : Option String) : String :=
  if failed then "I remain unconvinced. Try again."
  else stringOrDefault (text.map strTrim) "Your definition lacks precision. Clarify."

def judgeSocraticRound (failed : Bool) (text : Option String)
    (parse : String → Option SocialPage.JudgeResult) : SocialPage.JudgeResult :=
  if failed then { pass := false, score := 0, feedback := "The defense collapsed." }
  else match parse (stringOrDefault text "\x7b\x7d") with
    | some v => v
    | none => { pass := false, score := 0, feedback := "The defense collapsed." }

/-- Model of generateCalculusProblem (geminiService.ts lines 362-400): the
catch path resolves to null; on success JSON.parse(text || "null") with a
null or non-conforming result is none. -/
def generateCalculusProblem (failed : Bool) (text : Option String)
    (parse : String → Option SocialPage.MathProblem) : Option SocialPage.MathProblem :=
  if failed then none
  else parse (stringOrDefault text "null")

def generateVideoIntro (failed : Bool) (videoUri : Option String) : Option String :=
  if failed then none
  else videoUri

def generateSpeech (failed : Bool) (audioData : Option (List Nat)) : Option (List Nat) :=
  if failed then none
  else audioData

/-! ## JSON layer: a verified model of JSON.stringify / JSON.parse on the
record fragment the mock backend stores (null, booleans, integer numbers,
strings, arrays, objects as ordered field lists).  The parser is fueled;
every call strictly decreases the fuel, and a fuel bound of the input
length plus one suffices for any stringified value. -/

inductive JValue where
  | jnull : JValue
  | jbool : Bool → JValue
  | jint : Int → JValue
  | jstr : String → JValue
  | jarr : List JValue → JValue
  | jobj : List (String × JValue) → JValue

def isDigitChar (c : Char) : Bool :=
  48 ≤ c.toNat && c.toNat ≤ 57

def digitChar (n : Nat) : Char :=
  match n with
  | 0 => '0'
  | 1 => '1'
  | 2 => '2'
  | 3 => '3'
  | 4 => '4'
  | 5 => '5'
  | 6 => '6'
  | 7 => '7'
  | 8 => '8'
  | _ => '9'

def hexDigitChar (n : Nat) : Char :=
  match n with
  | 0 => '0'
  | 1 => '1'
  | 2 => '2'
  | 3 => '3'
  | 4 => '4'
  | 5 => '5'
  | 6 => '6'
  | 7 => '7'
  | 8 => '8'
  | 9 => '9'
  | 10 => 'a'
  | 11 => 'b'
  | 12 => 'c'
  | 13 => 'd'
  | 14 => 'e'
  | _ => 'f'

def hexVal (c : Char) : Option Nat :=
  if isDigitChar c then some (c.toNat - 48)
  else if 97 ≤ c.toNat && c.toNat ≤ 102 then some (c.toNat - 87)
  else if 65 ≤ c.toNat && c.toNat ≤ 70 then some (c.toNat - 55)
  else none

/-- Decimal digits of a natural number, most significant first. -/
def natToChars (n : Nat) : List Char :=
  if _h : n < 10 then [digitChar n]
  else natToChars (n / 10) ++ [digitChar (n % 10)]
termination_by n
decreasing_by
  exact Nat.div_lt_self (Nat.lt_of_lt_of_le (by norm_num) (Nat.le_of_not_lt _h)) (by norm_num)

/-- Decimal notation of an integer, as JSON.stringify prints the integral
numbers stored by this application. -/
def intToChars : Int → List Char
  | Int.ofNat n => natToChars n
  | Int.negSucc n => '-' :: natToChars (n + 1)

/-- JSON string-character escaping as performed by JSON.stringify: quote,
backslash and the named control escapes, \u00xx for other control
characters, and every other character unchanged. -/
def escChar (c : Char) : List Char :=
  if c = '"' then ['\\', '"']
  else if c = '\\' then ['\\', '\\']
  else if c = '\x08' then ['\\', 'b']
  else if c = '\x09' then ['\\', 't']
  else if c = '\x0a' then ['\\', 'n']
  else if c = '\x0c' then ['\\', 'f']
  else if c = '\x0d' then ['\\', 'r']
  else if c.toNat < 32 then
    ['\\', 'u', '0', '0', hexDigitChar (c.toNat / 16), hexDigitChar (c.toNat % 16)]
  else [c]

/-- Escaped body of a JSON string literal (without the delimiting quotes). -/
def escBody (s : String) : List Char :=
  (s.toList.map escChar).flatten

/-- A JSON string literal: quote, escaped body, quote. -/
def escString (s : String) : List Char :=
  '"' :: escBody s ++ ['"']

mutual

/-- Characters of JSON.stringify for a JValue. -/
def strVal : JValue → List Char
  | .jnull => ['n', 'u', 'l', 'l']
  | .jbool true => ['t', 'r', 'u', 'e']
  | .jbool false => ['f', 'a', 'l', 's', 'e']
  | .jint n => intToChars n
  | .jstr s => escString s
  | .jarr [] => ['[', ']']
  | .jarr (v :: vs) => '[' :: (strVal v ++ strArrTail vs)
  | .jobj [] => ['\x7b', '\x7d']
  | .jobj (f :: fs) => '\x7b' :: (strField f ++ strObjTail fs)

def strField : String × JValue → List Char
  | (k, v) => escString k ++ (':' :: strVal v)

def strArrTail : List JValue → List Char
  | [] => [']']
  | v :: vs => ',' :: (strVal v ++ strArrTail vs)

def strObjTail : List (String × JValue) → List Char
  | [] => ['\x7d']
  | f :: fs => ',' :: (strField f ++ strObjTail fs)

end

def jsonStringify (v : JValue) : String :=
  String.mk (strVal v)

/-- Greedy decimal-digit accumulator of the parser. -/
def parseDigits (acc : Nat) : List Char → Nat × List Char
  | [] => (acc, [])
  | c :: cs =>
      if isDigitChar c then parseDigits (acc * 10 + (c.toNat - 48)) cs
      else (acc, c :: cs)

/-- Parse a JSON integer numeral (optional minus sign, then digits). -/
def parseIntChars (input : List Char) : Option (Int × List Char) :=
  match input with
  | [] => none
  | c :: cs =>
      if c = '-' then
        match cs with
        | [] => none
        | c2 :: cs2 =>
            if isDigitChar c2 then
              let p := parseDigits 0 (c2 :: cs2)
              some (-(p.1 : Int), p.2)
            else none
      else if isDigitChar c then
        let p := parseDigits 0 (c :: cs)
        some ((p.1 : Int), p.2)
      else none

/-- Parse the body of a JSON string literal after its opening quote,
returning the decoded characters and the input after the closing quote. -/
def parseStrChars : List Char → Option (List Char × List Char)
  | [] => none
  | c :: rest =>
      if c = '"' then some ([], rest)
      else if c = '\\' then
        match rest with
        | [] => none
        | e :: rest2 =>
            if e = '"' then (parseStrChars rest2).map fun p => ('"' :: p.1, p.2)
            else if e = '\\' then (parseStrChars rest2).map fun p => ('\\' :: p.1, p.2)
            else if e = '/' then (parseStrChars rest2).map fun p => ('/' :: p.1, p.2)
            else if e = 'b' then (parseStrChars rest2).map fun p => ('\x08' :: p.1, p.2)
            else if e = 'f' then (parseStrChars rest2).map fun p => ('\x0c' :: p.1, p.2)
            else if e = 'n' then (parseStrChars rest2).map fun p => ('\x0a' :: p.1, p.2)
            else if e = 'r' then (parseStrChars rest2).map fun p => ('\x0d' :: p.1, p.2)
            else if e = 't' then (parseStrChars rest2).map fun p => ('\x09' :: p.1, p.2)
            else if e = 'u' then
              match rest2 with
              | h1 :: h2 :: h3 :: h4 :: r =>
                  match hexVal h1, hexVal h2, hexVal h3, hexVal h4 with
                  | some a, some b, some c2, some d =>
                      (parseStrChars r).map fun p =>
                        (Char.ofNat (((a * 16 + b) * 16 + c2) * 16 + d) :: p.1, p.2)
                  | _, _, _, _ => none
              | _ => none
            else none
      else (parseStrChars rest).map fun p => (c :: p.1, p.2)

mutual

/-- Fueled JSON value parser. -/
def parseVal : Nat → List Char → Option (JValue × List Char)
  | 0, _ => none
  | _ + 1, [] => none
  | fuel + 1, c :: rest =>
      if c = 'n' then
        match rest with
        | 'u' :: 'l' :: 'l' :: r => some (.jnull, r)
        | _ => none
      else if c = 't' then
        match rest with
        | 'r' :: 'u' :: 'e' :: r => some (.jbool true, r)
        | _ => none
      else if c = 'f' then
        match rest with
        | 'a' :: 'l' :: 's' :: 'e' :: r => some (.jbool false, r)
        | _ => none
      else if c = '"' then
        (parseStrChars rest).map fun p => (.jstr (String.mk p.1), p.2)
      else if c = '[' then
        if rest.head? = some ']' then some (.jarr [], rest.tail)
        else do
          let p ← parseVal fuel rest
          let q ← parseArrTail fuel p.2
          some (.jarr (p.1 :: q.1), q.2)
      else if c = '\x7b' then
        if rest.head? = some '\x7d' then some (.jobj [], rest.tail)
        else do
          let p ← parseField fuel rest
          let q ← parseObjTail fuel p.2
          some (.jobj (p.1 :: q.1), q.2)
      else
        (parseIntChars (c :: rest)).map fun p => (.jint p.1, p.2)

/-- Fueled parser for one `"key":value` field of a JSON object. -/
def parseField : Nat → List Char → Option ((String × JValue) × List Char)
  | 0, _ => none
  | fuel + 1, input =>
      match input with
      | '"' :: rest => do
          let k ← parseStrChars rest
          match k.2 with
          | ':' :: r2 => do
              let v ← parseVal fuel r2
              some ((String.mk k.1, v.1), v.2)
          | _ => none
      | _ => none

/-- Fueled parser for the rest of a JSON array after an element. -/
def parseArrTail : Nat → List Char → Option (List JValue × List Char)
  | 0, _ => none
  | fuel + 1, input =>
      match input with
      | ']' :: rest => some ([], rest)
      | ',' :: rest => do
          let p ← parseVal fuel rest
          let q ← parseArrTail fuel p.2
          some (p.1 :: q.1, q.2)
      | _ => none

/-- Fueled parser for the rest of a JSON object after a field. -/
def parseObjTail : Nat → List Char → Option (List (String × JValue) × List Char)
  | 0, _ => none
  | fuel + 1, input =>
      match input with
      | '\x7d' :: rest => some ([], rest)
      | ',' :: rest => do
          let p ← parseField fuel rest
          let q ← parseObjTail fuel p.2
          some (p.1 :: q.1, q.2)
      | _ => none

end

/-- Model of JSON.parse on the integer-record fragment: a parse succeeds
when the whole input is consumed; everything else (including the inputs on
which the real JSON.parse throws) is none. -/
def jsonParse (s : String) : Option JValue :=
  match parseVal (s.length + 1) s.toList with
  | some (v, []) => some v
  | _ => none

/-! ## The localStorage wrapper db (geminiService.ts lines 553-561).
localStorage is a partial map from keys to stored text. -/

def Store := String → Option String

/-- Model of db.get: a missing key and unparseable text give null; the
JavaScript truthiness test `data ? ... : null` also maps stored empty text
to null. -/
def dbGet (store : Store) (key : String) : Option JValue :=
  match store key with
  | none => none
  | some data => if data = "" then none else jsonParse data

/-- Model of db.save: store JSON.stringify of the value under the key. -/
def dbSave (store : Store) (key : String) (data : JValue) : Store :=
  fun k => if k = key then some (jsonStringify data) else store k

/-- Model of generateCourseContent (geminiService.ts lines 42-97), placed
after the JSON layer because its untyped result is the raw
JSON.parse(response.text || "\x7b\x7d") value; the catch path (remote
failure or a parse exception) resolves to null. -/
def generateCourseContent (failed : Bool) (text : Option String) : Option JValue :=
  if failed then none
  else jsonParse (stringOrDefault text "\x7b\x7d")

/-! ## Auxiliary definitions for the JSON correctness development -/

/-- True when the input does not continue a decimal numeral (so a greedy
digit scan stops exactly here). -/
def noDigitStart : List Char → Bool
  | [] => true
  | c :: _ => !isDigitChar c

mutual

/-- Parse-depth measure of a JValue: fuel of at least this size lets the
fueled parser finish. -/
def sizeV : JValue → Nat
  | .jnull => 1
  | .jbool _ => 1
  | .jint _ => 1
  | .jstr _ => 1
  | .jarr [] => 1
  | .jarr (v :: vs) => 1 + max (sizeV v) (sizeTailA vs)
  | .jobj [] => 1
  | .jobj (f :: fs) => 1 + max (sizeF f) (sizeTailO fs)

def sizeF : String × JValue → Nat
  | (_, v) => 1 + sizeV v

def sizeTailA : List JValue → Nat
  | [] => 1
  | v :: vs => 1 + max (sizeV v) (sizeTailA vs)

def sizeTailO : List (String × JValue) → Nat
  | [] => 1
  | f :: fs => 1 + max (sizeF f) (sizeTailO fs)

end

instance : Inhabited Step :=
  ⟨{ id := "", type := .observation, text := "" }⟩

/-- The quantum system course seed (geminiService.ts lines 659-675), spelled
out once more for concrete witness computations. -/
def quantCourse : Course :=
  { id := "lumi-sys-quant-002",
    title := "Quantum Physics: Wave Mechanics",
    subject := "Physics",
    description := "A multimedia journey into the quantum realm. Features video visualizations, audio lecture notes, and deep theoretical texts.",
    type := .mixed,
    level := "Undergraduate",
    duration := some "8 Hours",
    speed := some "Standard",
    author := "LUMI AI",
    videoIntroUrl := some "https://storage.googleapis.com/gtv-videos-bucket/sample/TearsOfSteel.mp4",
    roadmap := some ["Video: The Ultraviolet Catastrophe", "Audio Ref: Heisenberg Uncertainty", "Text: The Schrödinger Equation", "Simulation: Double Slit Experiment"],
    content := [],
    isPublic := some true,
    likes := some ["curator"],
    comments := some [] }

/-- A small user-created course used as concrete witness input. -/
def witCourse : Course :=
  { id := "my-course", title := "T", subject := "S", description := "D",
    type := .flashcard, level := "L", content := [], author := "a",
    likes := some ["a"] }

/-- A concrete comment used as witness input. -/
def witComment : Comment :=
  { id := "c-1", author := "scholar", text := "A fine tome.", timestamp := 5 }

/-- A concrete CourseViewer state with three quiz questions, two of them
answered with the correct option index. -/
def witQuizState : CourseViewer.State :=
  { quizQuestions :=
      [ { question := "q1", options := ["a", "b"], answer := 0 },
        { question := "q2", options := ["a", "b"], answer := 1 },
        { question := "q3", options := ["a", "b"], answer := 0 } ],
    quizAnswers := [some 0, some 1, some 1] }

/-! # Theorems -/

/-! ### Arithmetic of the decimal and hexadecimal digit tables -/

theorem digitChar_spec : ∀ n < 10, isDigitChar (digitChar n) = true ∧ (digitChar n).toNat - 48 = n := by
  decide

theorem hexVal_hexDigitChar : ∀ n < 16, hexVal (hexDigitChar n) = some n := by
  decide

theorem parseDigits_stop (acc : Nat) (rest : List Char) (h : noDigitStart rest = true) :
    parseDigits acc rest = (acc, rest) := by
  cases rest with
  | nil => rfl
  | cons c cs =>
      simp only [noDigitStart, Bool.not_eq_true'] at h
      simp [parseDigits, h]

theorem parseDigits_natToChars (n : Nat) : ∀ acc rest,
    parseDigits acc (natToChars n ++ rest) =
      parseDigits (acc * 10 ^ (natToChars n).length + n) rest := by
  induction n using Nat.strong_induction_on with
  | _ n ih =>
    intro acc rest
    by_cases h : n < 10
    · have hd := digitChar_spec n h
      rw [natToChars]
      simp only [h, dite_true, List.cons_append, List.nil_append, List.length_cons,
        List.length_nil, pow_one]
      simp [parseDigits, hd.1, hd.2]
    · have hlt : n / 10 < n :=
        Nat.div_lt_self (Nat.lt_of_lt_of_le (by norm_num) (Nat.le_of_not_lt h)) (by norm_num)
      have hm := digitChar_spec (n % 10) (Nat.mod_lt n (by norm_num))
      rw [natToChars]
      simp only [h, dite_false, List.append_assoc, List.cons_append, List.nil_append,
        List.length_append, List.length_cons, List.length_nil]
      rw [ih (n / 10) hlt acc (digitChar (n % 10) :: rest)]
      simp only [parseDigits, hm.1, if_true, hm.2]
      congr 1
      have hdm : 10 * (n / 10) + n % 10 = n := Nat.div_add_mod n 10
      generalize (natToChars (n / 10)).length = L
      generalize hk : acc * 10 ^ L = k
      have : acc * 10 ^ (L + 1) = k * 10 := by rw [← hk, pow_succ]; ring
      rw [this]
      omega

theorem natToChars_head (n : Nat) : ∃ c cs, natToChars n = c :: cs ∧ isDigitChar c = true := by
  induction n using Nat.strong_induction_on with
  | _ n ih =>
    by_cases h : n < 10
    · exact ⟨digitChar n, [], by rw [natToChars]; simp [h], (digitChar_spec n h).1⟩
    · have hlt : n / 10 < n :=
        Nat.div_lt_self (Nat.lt_of_lt_of_le (by norm_num) (Nat.le_of_not_lt h)) (by norm_num)
      obtain ⟨c, cs, hc, hdig⟩ := ih (n / 10) hlt
      refine ⟨c, cs ++ [digitChar (n % 10)], ?_, hdig⟩
      rw [natToChars]
      simp [h, hc]

theorem digit_ne_special (c : Char) (h : isDigitChar c = true) :
    c ≠ 'n' ∧ c ≠ 't' ∧ c ≠ 'f' ∧ c ≠ '"' ∧ c ≠ '[' ∧ c ≠ '\x7b' ∧ c ≠ '-' ∧ c ≠ ']' ∧ c ≠ '\x7d' := by
  refine ⟨?_, ?_, ?_, ?_, ?_, ?_, ?_, ?_, ?_⟩ <;>
    · intro e; subst e; revert h; decide

theorem parseIntChars_intToChars (m : Int) (rest : List Char) (h : noDigitStart rest = true) :
    parseIntChars (intToChars m ++ rest) = some (m, rest) := by
  cases m with
  | ofNat n =>
      obtain ⟨c, cs, hc, hdig⟩ := natToChars_head n
      have hmi : c ≠ '-' := (digit_ne_special c hdig).2.2.2.2.2.2.1
      have hp : parseDigits 0 ((c :: cs) ++ rest) = (n, rest) := by
        rw [← hc, parseDigits_natToChars n 0 rest, Nat.zero_mul, Nat.zero_add,
          parseDigits_stop _ _ h]
      simp only [intToChars, hc, List.cons_append, parseIntChars]
      rw [if_neg hmi, if_pos hdig]
      simp only [← List.cons_append, hp]
      rfl
  | negSucc n =>
      obtain ⟨c, cs, hc, hdig⟩ := natToChars_head (n + 1)
      have hp : parseDigits 0 ((c :: cs) ++ rest) = (n + 1, rest) := by
        rw [← hc, parseDigits_natToChars (n + 1) 0 rest, Nat.zero_mul, Nat.zero_add,
          parseDigits_stop _ _ h]
      simp only [intToChars, hc, List.cons_append, parseIntChars]
      simp only [if_true, hdig, ← List.cons_append, hp]
      simp [Int.negSucc_eq]


theorem parseStrChars_escaped (l : List Char) : ∀ rest,
    parseStrChars ((l.map escChar).flatten ++ '"' :: rest) = some (l, rest) := by
  induction l with
  | nil =>
      intro rest
      rw [List.map_nil, List.flatten_nil, List.nil_append, parseStrChars.eq_def]
      simp
  | cons c l ih =>
      intro rest
      simp only [List.map_cons, List.flatten_cons, List.append_assoc]
      by_cases h1 : c = '"'
      · subst h1
        rw [show escChar '"' = ['\\', '"'] from rfl]
        simp only [List.cons_append, List.nil_append]
        rw [parseStrChars.eq_def]
        simp +decide [ih]
      · by_cases h2 : c = '\\'
        · subst h2
          rw [show escChar '\\' = ['\\', '\\'] from rfl]
          simp only [List.cons_append, List.nil_append]
          rw [parseStrChars.eq_def]
          simp +decide [ih]
        · by_cases h3 : c = '\x08'
          · subst h3
            rw [show escChar '\x08' = ['\\', 'b'] from rfl]
            simp only [List.cons_append, List.nil_append]
            rw [parseStrChars.eq_def]
            simp +decide [ih]
          · by_cases h4 : c = '\x09'
            · subst h4
              rw [show escChar '\x09' = ['\\', 't'] from rfl]
              simp only [List.cons_append, List.nil_append]
              rw [parseStrChars.eq_def]
              simp +decide [ih]
            · by_cases h5 : c = '\x0a'
              · subst h5
                rw [show escChar '\x0a' = ['\\', 'n'] from rfl]
                simp only [List.cons_append, List.nil_append]
                rw [parseStrChars.eq_def]
                simp +decide [ih]
              · by_cases h6 : c = '\x0c'
                · subst h6
                  rw [show escChar '\x0c' = ['\\', 'f'] from rfl]
                  simp only [List.cons_append, List.nil_append]
                  rw [parseStrChars.eq_def]
                  simp +decide [ih]
                · by_cases h7 : c = '\x0d'
                  · subst h7
                    rw [show escChar '\x0d' = ['\\', 'r'] from rfl]
                    simp only [List.cons_append, List.nil_append]
                    rw [parseStrChars.eq_def]
                    simp +decide [ih]
                  · by_cases h8 : c.toNat < 32
                    · have e1 : escChar c =
                          ['\\', 'u', '0', '0', hexDigitChar (c.toNat / 16), hexDigitChar (c.toNat % 16)] := by
                        simp only [escChar]
                        rw [if_neg h1, if_neg h2, if_neg h3, if_neg h4, if_neg h5, if_neg h6,
                          if_neg h7, if_pos h8]
                      rw [e1]
                      simp only [List.cons_append, List.nil_append]
                      rw [parseStrChars.eq_def]
                      simp +decide only []
                      rw [hexVal_hexDigitChar _ (by omega : c.toNat / 16 < 16),
                        hexVal_hexDigitChar _ (Nat.mod_lt _ (by norm_num))]
                      simp +decide [ih]
                      rw [show hexVal '0' = some 0 from rfl]
                      simp only [Option.some.injEq]
                      rw [show ((0 * 16 + 0) * 16 + c.toNat / 16) * 16 + c.toNat % 16 = c.toNat from by omega]
                      rw [Char.ofNat_toNat]
                    · have e1 : escChar c = [c] := by
                        simp only [escChar]
                        rw [if_neg h1, if_neg h2, if_neg h3, if_neg h4, if_neg h5, if_neg h6,
                          if_neg h7, if_neg h8]
                      rw [e1]
                      simp only [List.cons_append, List.nil_append]
                      rw [parseStrChars.eq_def]
                      simp only []
                      rw [if_neg h1, if_neg h2]
                      simp [ih]


/-! ### Head-character facts about stringified values -/

theorem sizes_pos :
    (∀ v, 1 ≤ sizeV v) ∧ (∀ f, 1 ≤ sizeF f) ∧ (∀ vs, 1 ≤ sizeTailA vs) ∧ (∀ fs, 1 ≤ sizeTailO fs) := by
  refine ⟨?_, ?_, ?_, ?_⟩
  · intro v
    cases v with
    | jnull => simp [sizeV]
    | jbool b => simp [sizeV]
    | jint m => simp [sizeV]
    | jstr s => simp [sizeV]
    | jarr l => cases l <;> simp [sizeV]
    | jobj l => cases l <;> simp [sizeV]
  · intro f; obtain ⟨k, v⟩ := f; simp [sizeF]
  · intro vs; cases vs <;> simp [sizeTailA]
  · intro fs; cases fs <;> simp [sizeTailO]

theorem intToChars_head (m : Int) :
    ∃ c cs, intToChars m = c :: cs ∧ (c = '-' ∨ isDigitChar c = true) := by
  cases m with
  | ofNat n =>
      obtain ⟨c, cs, hc, hd⟩ := natToChars_head n
      exact ⟨c, cs, by simp [intToChars, hc], Or.inr hd⟩
  | negSucc n =>
      exact ⟨'-', natToChars (n + 1), by simp [intToChars], Or.inl rfl⟩

theorem strVal_head_spec (v : JValue) :
    ∃ c cs, strVal v = c :: cs ∧ c ≠ ']' ∧ c ≠ '\x7d' := by
  cases v with
  | jnull => exact ⟨'n', ['u', 'l', 'l'], by simp [strVal], by decide, by decide⟩
  | jbool b =>
      cases b with
      | false => exact ⟨'f', ['a', 'l', 's', 'e'], by simp [strVal], by decide, by decide⟩
      | true => exact ⟨'t', ['r', 'u', 'e'], by simp [strVal], by decide, by decide⟩
  | jint m =>
      obtain ⟨c, cs, hc, hd⟩ := intToChars_head m
      refine ⟨c, cs, by simp [strVal, hc], ?_, ?_⟩
      · rcases hd with h | h
        · subst h; decide
        · exact (digit_ne_special c h).2.2.2.2.2.2.2.1
      · rcases hd with h | h
        · subst h; decide
        · exact (digit_ne_special c h).2.2.2.2.2.2.2.2
  | jstr s => exact ⟨'"', escBody s ++ ['"'], by simp [strVal, escString], by decide, by decide⟩
  | jarr l =>
      cases l with
      | nil => exact ⟨'[', [']'], by simp [strVal], by decide, by decide⟩
      | cons v vs => exact ⟨'[', strVal v ++ strArrTail vs, by simp [strVal], by decide, by decide⟩
  | jobj l =>
      cases l with
      | nil => exact ⟨'\x7b', ['\x7d'], by simp [strVal], by decide, by decide⟩
      | cons f fs => exact ⟨'\x7b', strField f ++ strObjTail fs, by simp [strVal], by decide, by decide⟩

theorem strField_head (f : String × JValue) :
    ∃ cs, strField f = '"' :: cs := by
  obtain ⟨k, v⟩ := f
  exact ⟨escBody k ++ ['"'] ++ (':' :: strVal v), by simp [strField, escString]⟩

theorem noDigitStart_strArrTail (vs : List JValue) (rest : List Char) :
    noDigitStart (strArrTail vs ++ rest) = true := by
  cases vs <;> simp [strArrTail, noDigitStart] <;> decide

theorem noDigitStart_strObjTail (fs : List (String × JValue)) (rest : List Char) :
    noDigitStart (strObjTail fs ++ rest) = true := by
  cases fs <;> simp [strObjTail, noDigitStart] <;> decide

theorem stringMk_toList (s : String) : String.mk s.toList = s := by
  obtain ⟨d⟩ := s; rfl

/-! ### The parser inverts the printer, given enough fuel -/

theorem parse_inverts_print : ∀ fuel : Nat,
    (∀ v rest, sizeV v ≤ fuel → noDigitStart rest = true →
      parseVal fuel (strVal v ++ rest) = some (v, rest)) ∧
    (∀ f rest, sizeF f ≤ fuel → noDigitStart rest = true →
      parseField fuel (strField f ++ rest) = some (f, rest)) ∧
    (∀ vs rest, sizeTailA vs ≤ fuel →
      parseArrTail fuel (strArrTail vs ++ rest) = some (vs, rest)) ∧
    (∀ fs rest, sizeTailO fs ≤ fuel →
      parseObjTail fuel (strObjTail fs ++ rest) = some (fs, rest)) := by
  intro fuel
  induction fuel with
  | zero =>
      refine ⟨fun v _ h _ => ?_, fun f _ h _ => ?_, fun vs _ h => ?_, fun fs _ h => ?_⟩
      · exact absurd h (by have := sizes_pos.1 v; omega)
      · exact absurd h (by have := sizes_pos.2.1 f; omega)
      · exact absurd h (by have := sizes_pos.2.2.1 vs; omega)
      · exact absurd h (by have := sizes_pos.2.2.2 fs; omega)
  | succ fuel IH =>
      obtain ⟨ihV, ihF, ihA, ihO⟩ := IH
      refine ⟨?_, ?_, ?_, ?_⟩
      · intro v rest hs hnd
        cases v with
        | jnull =>
            simp only [strVal, List.cons_append, List.nil_append]
            simp +decide [parseVal]
        | jbool b =>
            cases b <;>
              · simp only [strVal, List.cons_append, List.nil_append]
                simp +decide [parseVal]
        | jint m =>
            obtain ⟨c, cs, hc, hd⟩ := intToChars_head m
            have hne : c ≠ 'n' ∧ c ≠ 't' ∧ c ≠ 'f' ∧ c ≠ '"' ∧ c ≠ '[' ∧ c ≠ '\x7b' := by
              rcases hd with h | h
              · subst h; refine ⟨by decide, by decide, by decide, by decide, by decide, by decide⟩
              · have := digit_ne_special c h
                exact ⟨this.1, this.2.1, this.2.2.1, this.2.2.2.1, this.2.2.2.2.1, this.2.2.2.2.2.1⟩
            have hgoal : strVal (.jint m) ++ rest = c :: (cs ++ rest) := by
              simp [strVal, hc]
            rw [hgoal]
            simp only [parseVal]
            rw [if_neg hne.1, if_neg hne.2.1, if_neg hne.2.2.1, if_neg hne.2.2.2.1,
              if_neg hne.2.2.2.2.1, if_neg hne.2.2.2.2.2]
            rw [← List.cons_append, ← hc, parseIntChars_intToChars m rest hnd]
            rfl
        | jstr s =>
            have hgoal : strVal (.jstr s) ++ rest = '"' :: (escBody s ++ '"' :: rest) := by
              simp [strVal, escString]
            rw [hgoal]
            simp only [parseVal]
            rw [if_neg (by decide : ¬ ('"' : Char) = 'n'), if_neg (by decide : ¬ ('"' : Char) = 't'),
              if_neg (by decide : ¬ ('"' : Char) = 'f'), if_pos trivial]
            rw [show escBody s = (s.toList.map escChar).flatten from rfl]
            rw [parseStrChars_escaped s.toList rest]
            simp [stringMk_toList]
        | jarr l =>
            cases l with
            | nil =>
                have hgoal : strVal (.jarr []) ++ rest = '[' :: (']' :: rest) := by
                  simp [strVal]
                rw [hgoal]
                simp +decide [parseVal]
            | cons v vs =>
                have hgoal : strVal (.jarr (v :: vs)) ++ rest
                    = '[' :: (strVal v ++ (strArrTail vs ++ rest)) := by
                  simp [strVal]
                rw [hgoal]
                have hsz : sizeV v ≤ fuel ∧ sizeTailA vs ≤ fuel := by
                  have h1 : sizeV (.jarr (v :: vs)) = 1 + max (sizeV v) (sizeTailA vs) := by
                    simp [sizeV]
                  have h2 := Nat.le_max_left (sizeV v) (sizeTailA vs)
                  have h3 := Nat.le_max_right (sizeV v) (sizeTailA vs)
                  rw [h1] at hs
                  omega
                have hhead : ¬ ((strVal v ++ (strArrTail vs ++ rest)).head? = some ']') := by
                  obtain ⟨c, cs, hc, hc1, _⟩ := strVal_head_spec v
                  rw [hc]
                  simp [hc1]
                simp only [parseVal]
                rw [if_neg (by decide : ¬ ('[' : Char) = 'n'), if_neg (by decide : ¬ ('[' : Char) = 't'),
                  if_neg (by decide : ¬ ('[' : Char) = 'f'), if_neg (by decide : ¬ ('[' : Char) = '"'),
                  if_pos trivial, if_neg hhead]
                rw [ihV v (strArrTail vs ++ rest) hsz.1 (noDigitStart_strArrTail vs rest)]
                simp only [Option.bind_eq_bind, Option.some_bind]
                rw [ihA vs rest hsz.2]
                rfl
        | jobj l =>
            cases l with
            | nil =>
                have hgoal : strVal (.jobj []) ++ rest = '\x7b' :: ('\x7d' :: rest) := by
                  simp [strVal]
                rw [hgoal]
                simp +decide [parseVal]
            | cons f fs =>
                have hgoal : strVal (.jobj (f :: fs)) ++ rest
                    = '\x7b' :: (strField f ++ (strObjTail fs ++ rest)) := by
                  simp [strVal]
                rw [hgoal]
                have hsz : sizeF f ≤ fuel ∧ sizeTailO fs ≤ fuel := by
                  have h1 : sizeV (.jobj (f :: fs)) = 1 + max (sizeF f) (sizeTailO fs) := by
                    simp [sizeV]
                  have h2 := Nat.le_max_left (sizeF f) (sizeTailO fs)
                  have h3 := Nat.le_max_right (sizeF f) (sizeTailO fs)
                  rw [h1] at hs
                  omega
                have hhead : ¬ ((strField f ++ (strObjTail fs ++ rest)).head? = some '\x7d') := by
                  obtain ⟨cs, hc⟩ := strField_head f
                  rw [hc]
                  simp +decide
                simp only [parseVal]
                rw [if_neg (by decide : ¬ ('\x7b' : Char) = 'n'), if_neg (by decide : ¬ ('\x7b' : Char) = 't'),
                  if_neg (by decide : ¬ ('\x7b' : Char) = 'f'), if_neg (by decide : ¬ ('\x7b' : Char) = '"'),
                  if_neg (by decide : ¬ ('\x7b' : Char) = '['), if_pos trivial, if_neg hhead]
                rw [ihF f (strObjTail fs ++ rest) hsz.1 (noDigitStart_strObjTail fs rest)]
                simp only [Option.bind_eq_bind, Option.some_bind]
                rw [ihO fs rest hsz.2]
                rfl
      · intro f rest hs hnd
        obtain ⟨k, v⟩ := f
        have hgoal : strField (k, v) ++ rest = '"' :: (escBody k ++ '"' :: (':' :: (strVal v ++ rest))) := by
          simp [strField, escString]
        rw [hgoal]
        have hszv : sizeV v ≤ fuel := by
          have h1 : sizeF (k, v) = 1 + sizeV v := by simp [sizeF]
          rw [h1] at hs
          omega
        simp only [parseField]
        rw [show escBody k = (k.toList.map escChar).flatten from rfl]
        rw [parseStrChars_escaped k.toList (':' :: (strVal v ++ rest))]
        simp only [Option.bind_eq_bind, Option.some_bind]
        rw [ihV v rest hszv hnd]
        simp [stringMk_toList]
      · intro vs rest hs
        cases vs with
        | nil =>
            have hgoal : strArrTail [] ++ rest = ']' :: rest := by simp [strArrTail]
            rw [hgoal]
            simp [parseArrTail]
        | cons v vs =>
            have hgoal : strArrTail (v :: vs) ++ rest = ',' :: (strVal v ++ (strArrTail vs ++ rest)) := by
              simp [strArrTail]
            rw [hgoal]
            have hsz : sizeV v ≤ fuel ∧ sizeTailA vs ≤ fuel := by
              have h1 : sizeTailA (v :: vs) = 1 + max (sizeV v) (sizeTailA vs) := by simp [sizeTailA]
              have h2 := Nat.le_max_left (sizeV v) (sizeTailA vs)
              have h3 := Nat.le_max_right (sizeV v) (sizeTailA vs)
              rw [h1] at hs
              omega
            simp only [parseArrTail]
            rw [ihV v (strArrTail vs ++ rest) hsz.1 (noDigitStart_strArrTail vs rest)]
            simp only [Option.bind_eq_bind, Option.some_bind]
            rw [ihA vs rest hsz.2]
            rfl
      · intro fs rest hs
        cases fs with
        | nil =>
            have hgoal : strObjTail [] ++ rest = '\x7d' :: rest := by simp [strObjTail]
            rw [hgoal]
            simp [parseObjTail]
        | cons f fs =>
            have hgoal : strObjTail (f :: fs) ++ rest = ',' :: (strField f ++ (strObjTail fs ++ rest)) := by
              simp [strObjTail]
            rw [hgoal]
            have hsz : sizeF f ≤ fuel ∧ sizeTailO fs ≤ fuel := by
              have h1 : sizeTailO (f :: fs) = 1 + max (sizeF f) (sizeTailO fs) := by simp [sizeTailO]
              have h2 := Nat.le_max_left (sizeF f) (sizeTailO fs)
              have h3 := Nat.le_max_right (sizeF f) (sizeTailO fs)
              rw [h1] at hs
              omega
            simp only [parseObjTail]
            rw [ihF f (strObjTail fs ++ rest) hsz.1 (noDigitStart_strObjTail fs rest)]
            simp only [Option.bind_eq_bind, Option.some_bind]
            rw [ihO fs rest hsz.2]
            rfl

theorem sizes_le_length : ∀ fuel : Nat,
    (∀ v, sizeV v ≤ fuel → sizeV v ≤ (strVal v).length) ∧
    (∀ f, sizeF f ≤ fuel → sizeF f ≤ (strField f).length) ∧
    (∀ vs, sizeTailA vs ≤ fuel → sizeTailA vs ≤ (strArrTail vs).length) ∧
    (∀ fs, sizeTailO fs ≤ fuel → sizeTailO fs ≤ (strObjTail fs).length) := by
  intro fuel
  induction fuel with
  | zero =>
      refine ⟨fun v h => ?_, fun f h => ?_, fun vs h => ?_, fun fs h => ?_⟩
      · exact absurd h (by have := sizes_pos.1 v; omega)
      · exact absurd h (by have := sizes_pos.2.1 f; omega)
      · exact absurd h (by have := sizes_pos.2.2.1 vs; omega)
      · exact absurd h (by have := sizes_pos.2.2.2 fs; omega)
  | succ fuel IH =>
      obtain ⟨ihV, ihF, ihA, ihO⟩ := IH
      refine ⟨?_, ?_, ?_, ?_⟩
      · intro v hs
        cases v with
        | jnull => simp [sizeV, strVal]
        | jbool b => cases b <;> simp [sizeV, strVal]
        | jint m =>
            obtain ⟨c, cs, hc, _⟩ := intToChars_head m
            simp [sizeV, strVal, hc]
        | jstr s => simp [sizeV, strVal, escString]
        | jarr l =>
            cases l with
            | nil => simp [sizeV, strVal]
            | cons v vs =>
                have h1 : sizeV (.jarr (v :: vs)) = 1 + max (sizeV v) (sizeTailA vs) := by
                  simp [sizeV]
                have h2 := Nat.le_max_left (sizeV v) (sizeTailA vs)
                have h3 := Nat.le_max_right (sizeV v) (sizeTailA vs)
                rw [h1] at hs ⊢
                have hv := ihV v (by omega)
                have ha := ihA vs (by omega)
                have h4 : (strVal (.jarr (v :: vs))).length
                    = 1 + ((strVal v).length + (strArrTail vs).length) := by
                  simp [strVal]
                  omega
                omega
        | jobj l =>
            cases l with
            | nil => simp [sizeV, strVal]
            | cons f fs =>
                have h1 : sizeV (.jobj (f :: fs)) = 1 + max (sizeF f) (sizeTailO fs) := by
                  simp [sizeV]
                have h2 := Nat.le_max_left (sizeF f) (sizeTailO fs)
                have h3 := Nat.le_max_right (sizeF f) (sizeTailO fs)
                rw [h1] at hs ⊢
                have hf := ihF f (by omega)
                have ho := ihO fs (by omega)
                have h4 : (strVal (.jobj (f :: fs))).length
                    = 1 + ((strField f).length + (strObjTail fs).length) := by
                  simp [strVal]
                  omega
                omega
      · intro f hs
        obtain ⟨k, v⟩ := f
        have h1 : sizeF (k, v) = 1 + sizeV v := by simp [sizeF]
        rw [h1] at hs ⊢
        have hv := ihV v (by omega)
        have h4 : (strField (k, v)).length = (escString k).length + (1 + (strVal v).length) := by
          simp [strField]
          omega
        omega
      · intro vs hs
        cases vs with
        | nil => simp [sizeTailA, strArrTail]
        | cons v vs =>
            have h1 : sizeTailA (v :: vs) = 1 + max (sizeV v) (sizeTailA vs) := by
              simp [sizeTailA]
            have h2 := Nat.le_max_left (sizeV v) (sizeTailA vs)
            have h3 := Nat.le_max_right (sizeV v) (sizeTailA vs)
            rw [h1] at hs ⊢
            have hv := ihV v (by omega)
            have ha := ihA vs (by omega)
            have h4 : (strArrTail (v :: vs)).length
                = 1 + ((strVal v).length + (strArrTail vs).length) := by
              simp [strArrTail]
              omega
            omega
      · intro fs hs
        cases fs with
        | nil => simp [sizeTailO, strObjTail]
        | cons f fs =>
            have h1 : sizeTailO (f :: fs) = 1 + max (sizeF f) (sizeTailO fs) := by
              simp [sizeTailO]
            have h2 := Nat.le_max_left (sizeF f) (sizeTailO fs)
            have h3 := Nat.le_max_right (sizeF f) (sizeTailO fs)
            rw [h1] at hs ⊢
            have hf := ihF f (by omega)
            have ho := ihO fs (by omega)
            have h4 : (strObjTail (f :: fs)).length
                = 1 + ((strField f).length + (strObjTail fs).length) := by
              simp [strObjTail]
              omega
            omega

theorem jsonParse_stringify (v : JValue) : jsonParse (jsonStringify v) = some v := by
  have hsz : sizeV v ≤ (strVal v).length + 1 := by
    have := (sizes_le_length (sizeV v)).1 v le_rfl
    omega
  have hmain := (parse_inverts_print ((strVal v).length + 1)).1 v [] hsz (by simp [noDigitStart])
  rw [List.append_nil] at hmain
  unfold jsonParse jsonStringify
  rw [show (String.mk (strVal v)).toList = strVal v from rfl,
    show (String.mk (strVal v)).length = (strVal v).length from rfl, hmain]

theorem jsonStringify_ne_empty (v : JValue) : jsonStringify v ≠ "" := by
  obtain ⟨c, cs, hc, _, _⟩ := strVal_head_spec v
  intro h
  have := congrArg String.toList h
  rw [show (jsonStringify v).toList = strVal v from rfl] at this
  rw [hc] at this
  exact List.noConfusion this

/-! ### Course-store lemmas -/

theorem toggleLikeCourse_cons_miss (now : Int) (x : Course) (xs : List Course)
    (cid u : String) (hx : (x.id == cid) = false) :
    toggleLikeCourse now (x :: xs) cid u = x :: toggleLikeCourse now xs cid u := by
  unfold toggleLikeCourse
  rw [List.findIdx?_cons, hx]
  simp only [Bool.false_eq_true, if_false, List.findIdx?_succ]
  cases h : xs.findIdx? (fun c => c.id == cid) with
  | some i =>
      simp [h, List.getD_cons_succ, List.set_cons_succ]
  | none =>
      cases hsys : (SYSTEM_COURSES now).find? (fun c => c.id == cid) with
      | some sc => simp [h, hsys]
      | none => simp [h, hsys]

theorem toggleLikeCourse_find (now : Int) (cid u : String) :
    ∀ (l : List Course) (c0 : Course),
      l.find? (fun c => c.id == cid) = some c0 →
      (toggleLikeCourse now l cid u).find? (fun c => c.id == cid)
        = some { c0 with likes := some (toggleLikes (c0.likes.getD []) u) } := by
  intro l
  induction l with
  | nil => intro c0 h; simp at h
  | cons x xs ih =>
      intro c0 h
      by_cases hx : (x.id == cid) = true
      · rw [List.find?_cons] at h
        rw [hx] at h
        simp only [Option.some.injEq] at h
        subst h
        unfold toggleLikeCourse
        rw [List.findIdx?_cons, hx]
        simp only [if_true, List.getD_cons_zero, List.set_cons_zero]
        rw [List.find?_cons]
        simp [hx]
      · have hx' : (x.id == cid) = false := by simp at hx ⊢; exact hx
        rw [List.find?_cons, hx'] at h
        rw [toggleLikeCourse_cons_miss now x xs cid u hx']
        rw [List.find?_cons, hx']
        exact ih c0 h

theorem mem_toggleLikes_self (L : List String) (u : String) :
    u ∈ toggleLikes L u ↔ u ∉ L := by
  unfold toggleLikes
  by_cases h : L.contains u
  · rw [if_pos h]
    simp only [List.mem_filter]
    have hm : u ∈ L := List.mem_of_elem_eq_true h
    simp [hm]
  · rw [if_neg h]
    have hm : u ∉ L := by
      intro hu
      exact h (List.elem_eq_true_of_mem hu)
    simp [hm]

theorem mem_toggleLikes_other (L : List String) (u v : String) (h : v ≠ u) :
    v ∈ toggleLikes L u ↔ v ∈ L := by
  unfold toggleLikes
  by_cases hc : L.contains u
  · rw [if_pos hc]
    simp only [List.mem_filter]
    constructor
    · exact fun hx => hx.1
    · intro hx
      refine ⟨hx, ?_⟩
      simp [h]
  · rw [if_neg hc]
    simp [h]

theorem mem_toggleLikes_twice (L : List String) (u v : String) :
    v ∈ toggleLikes (toggleLikes L u) u ↔ v ∈ L := by
  by_cases hv : v = u
  · subst hv
    rw [mem_toggleLikes_self, mem_toggleLikes_self]
    tauto
  · rw [mem_toggleLikes_other _ _ _ hv, mem_toggleLikes_other _ _ _ hv]

/-! ### Claim theorems: persistence and social operations -/

/-- C1: toggleLikeCourse on a system course copies the seed into the stored
list with the new like (first conjunct), but getCourses filters every stored
course whose id starts with the reserved system marker and returns the
untouched seed, so the edit is invisible on every subsequent read (second
conjunct).  This contradicts the copy-on-write design: the write is dead. -/
theorem systemCourse_like_not_visible :
    ((toggleLikeCourse 0 [] "lumi-sys-eng-mod1" "novice").any
        (fun c => c.id == "lumi-sys-eng-mod1" && (c.likes.getD []).contains "novice")) = true
    ∧ ((getCourses 0 (toggleLikeCourse 0 [] "lumi-sys-eng-mod1" "novice")).any
        (fun c => c.id == "lumi-sys-eng-mod1" && (c.likes.getD []).contains "novice")) = false := by
  constructor
  · decide
  · decide

/-- C2: on a system course absent from the stored list, toggleLikeCourse and
addCommentToCourse build a copy of the matching seed with a freshly edited
likes / comments field, append it to the stored list, and leave every
previously stored course in place; the seed list itself is a constant and is
never written. -/
theorem systemCourse_copy_on_write (now : Int) (stored : List Course) (cid u : String)
    (cm : Comment) (sc : Course)
    (h1 : ∀ c ∈ stored, (c.id == cid) = false)
    (h2 : (SYSTEM_COURSES now).find? (fun c => c.id == cid) = some sc) :
    toggleLikeCourse now stored cid u
      = stored ++ [{ sc with likes := some (toggleLikes (sc.likes.getD []) u) }]
    ∧ addCommentToCourse now stored cid cm
      = stored ++ [{ sc with comments := some (cm :: sc.comments.getD []) }]
    ∧ (toggleLikeCourse now stored cid u).take stored.length = stored
    ∧ (addCommentToCourse now stored cid cm).take stored.length = stored := by
  have hidx : stored.findIdx? (fun c => c.id == cid) = none :=
    List.findIdx?_eq_none_iff.mpr (by simpa using h1)
  have e1 : toggleLikeCourse now stored cid u
      = stored ++ [{ sc with likes := some (toggleLikes (sc.likes.getD []) u) }] := by
    unfold toggleLikeCourse
    rw [hidx, h2]
  have e2 : addCommentToCourse now stored cid cm
      = stored ++ [{ sc with comments := some (cm :: sc.comments.getD []) }] := by
    unfold addCommentToCourse
    rw [hidx, h2]
  refine ⟨e1, e2, ?_, ?_⟩
  · rw [e1, List.take_left]
  · rw [e2, List.take_left]

theorem systemCourse_copy_on_write_witness :
    toggleLikeCourse 0 [] "lumi-sys-quant-002" "scholar"
      = [] ++ [{ quantCourse with likes := some (toggleLikes (quantCourse.likes.getD []) "scholar") }]
    ∧ addCommentToCourse 0 [] "lumi-sys-quant-002" witComment
      = [] ++ [{ quantCourse with comments := some (witComment :: quantCourse.comments.getD []) }]
    ∧ (toggleLikeCourse 0 [] "lumi-sys-quant-002" "scholar").take (0 : Nat) = []
    ∧ (addCommentToCourse 0 [] "lumi-sys-quant-002" witComment).take (0 : Nat) = [] := by
  have h := systemCourse_copy_on_write 0 [] "lumi-sys-quant-002" "scholar" witComment
    quantCourse (by intro c hc; simp at hc) (by decide)
  exact ⟨h.1, h.2.1, h.2.2.1, h.2.2.2⟩

/-- C10: for a course already present in the stored list, toggleLikeCourse
updates the first matching course by removing the username when present and
appending it when absent, so one application flips the username's
membership and two applications restore the like membership (for every
username). -/
theorem toggleLikeCourse_involution (now : Int) (stored : List Course) (cid u : String)
    (c0 : Course) (h : stored.find? (fun c => c.id == cid) = some c0) :
    ((toggleLikeCourse now stored cid u).find? (fun c => c.id == cid)
        = some { c0 with likes := some (toggleLikes (c0.likes.getD []) u) })
    ∧ (u ∈ toggleLikes (c0.likes.getD []) u ↔ u ∉ c0.likes.getD [])
    ∧ ((toggleLikeCourse now (toggleLikeCourse now stored cid u) cid u).find?
          (fun c => c.id == cid)
        = some { c0 with likes := some (toggleLikes (toggleLikes (c0.likes.getD []) u) u) })
    ∧ (∀ v, v ∈ toggleLikes (toggleLikes (c0.likes.getD []) u) u ↔ v ∈ c0.likes.getD []) := by
  have h1 := toggleLikeCourse_find now cid u stored c0 h
  have h2 := toggleLikeCourse_find now cid u (toggleLikeCourse now stored cid u) _ h1
  refine ⟨h1, mem_toggleLikes_self _ _, ?_, fun v => mem_toggleLikes_twice _ _ _⟩
  simpa using h2

theorem toggleLikeCourse_involution_witness :
    ((toggleLikeCourse 7 [witCourse] "my-course" "a").find? (fun c => c.id == "my-course")
        = some { witCourse with likes := some (toggleLikes (witCourse.likes.getD []) "a") })
    ∧ ("a" ∈ toggleLikes (witCourse.likes.getD []) "a" ↔ "a" ∉ witCourse.likes.getD []) := by
  have h := toggleLikeCourse_involution 7 [witCourse] "my-course" "a" witCourse (by decide)
  exact ⟨h.1, h.2.1⟩

/-! ### Claim theorems: history and course progression -/

/-- C8: addToHistory de-duplicates by course id and prepends the newest
record: the stored history of the user equals the new record followed by at
most 29 surviving records of other courses, so it has at most 30 records,
its head is the new record, and no later record mentions the course. -/
theorem addToHistory_spec (H : String → List HistoryRecord) (username courseId : String)
    (action : HistoryAction) (now : Int) :
    addToHistory H username courseId action now username
      = ({ courseId := courseId, timestamp := now, action := action } : HistoryRecord)
          :: ((H username).filter (fun h => h.courseId != courseId)).take 29
    ∧ (addToHistory H username courseId action now username).length ≤ 30
    ∧ (addToHistory H username courseId action now username).head?
        = some { courseId := courseId, timestamp := now, action := action }
    ∧ ∀ r ∈ (addToHistory H username courseId action now username).tail,
        r.courseId ≠ courseId := by
  have h0 : addToHistory H username courseId action now username
      = (({ courseId := courseId, timestamp := now, action := action } : HistoryRecord)
          :: (H username).filter (fun h => h.courseId != courseId)).take 30 := by
    simp [addToHistory]
  have h1 : addToHistory H username courseId action now username
      = ({ courseId := courseId, timestamp := now, action := action } : HistoryRecord)
          :: ((H username).filter (fun h => h.courseId != courseId)).take 29 := by
    rw [h0, List.take_succ_cons]
  refine ⟨h1, ?_, ?_, ?_⟩
  · rw [h0]
    have := List.length_take 30 (({ courseId := courseId, timestamp := now, action := action } : HistoryRecord)
          :: (H username).filter (fun h => h.courseId != courseId))
    omega
  · rw [h1]; rfl
  · rw [h1]
    intro r hr
    have hr' : r ∈ (H username).filter (fun h => h.courseId != courseId) :=
      List.mem_of_mem_take hr
    have := (List.mem_filter.mp hr').2
    simpa using this

namespace CourseViewer

theorem unlockLevel_max_eq (l : Level) (s : State) :
    (unlockLevel l s).maxUnlockedLevel
      = if l.toNat > s.maxUnlockedLevel.toNat then l else s.maxUnlockedLevel := by
  unfold unlockLevel
  split <;> simp

theorem step_max_mono (s : State) (a : Action) :
    s.maxUnlockedLevel.toNat ≤ (step s a).maxUnlockedLevel.toNat := by
  have hu : ∀ (l : Level) (s' : State),
      s'.maxUnlockedLevel.toNat ≤ (unlockLevel l s').maxUnlockedLevel.toNat := by
    intro l s'
    rw [unlockLevel_max_eq]
    split <;> omega
  cases a with
  | finishFlashcards => exact hu _ _
  | finishQuiz =>
      show s.maxUnlockedLevel.toNat ≤ (handleFinishQuiz s).maxUnlockedLevel.toNat
      unfold handleFinishQuiz
      split
      · exact hu _ _
      · simp
  | finishApplication => exact hu _ _
  | finishDeepDive => simp [step, handleFinishDeepDive]
  | selectLevel l =>
      show s.maxUnlockedLevel.toNat ≤ (selectLevel l s).maxUnlockedLevel.toNat
      unfold selectLevel
      split <;> simp
  | quizSelect q o =>
      show s.maxUnlockedLevel.toNat ≤ (handleQuizSelect q o s).maxUnlockedLevel.toNat
      unfold handleQuizSelect
      split <;> simp
  | submitQuiz =>
      show s.maxUnlockedLevel.toNat ≤ (submitQuiz s).maxUnlockedLevel.toNat
      unfold submitQuiz
      split <;> simp
  | nextCard => simp [step, handleNextCard]
  | prevCard => simp [step, handlePrevCard]
  | flipCard => simp [step, flipCard]
  | setQuiz qs => simp [step, setQuiz]

/-- C9: maxUnlockedLevel never decreases across any sequence of CourseViewer
actions, and unlockLevel raises it exactly when the requested level is
strictly above the current maximum. -/
theorem maxUnlockedLevel_monotone (s : State) (acts : List Action) :
    s.maxUnlockedLevel.toNat ≤ (run s acts).maxUnlockedLevel.toNat
    ∧ ∀ (l : Level) (s' : State),
        (unlockLevel l s').maxUnlockedLevel
          = if l.toNat > s'.maxUnlockedLevel.toNat then l else s'.maxUnlockedLevel := by
  constructor
  · induction acts generalizing s with
    | nil => exact le_rfl
    | cons a acts ih =>
        calc s.maxUnlockedLevel.toNat ≤ (step s a).maxUnlockedLevel.toNat := step_max_mono s a
          _ ≤ (run (step s a) acts).maxUnlockedLevel.toNat := ih (step s a)
  · exact fun l s' => unlockLevel_max_eq l s'

/-- C3: submitQuiz with a complete answer list sets the score to the
fraction of questions whose selected option equals the answer field, times
100; handleFinishQuiz unlocks the Application stage exactly on a score of
at least 60, and below 60 pushes only the alert text, leaving the unlocked
level untouched. -/
theorem quiz_gating (s : State) :
    (s.quizQuestions.length ≤ s.quizAnswers.length →
      (submitQuiz s).quizScore
          = ((s.quizQuestions.enum.countP fun iq =>
                s.quizAnswers.getD iq.1 none == some iq.2.answer : ℚ)
              / (s.quizQuestions.length : ℚ)) * 100
        ∧ (submitQuiz s).quizSubmitted = true
        ∧ (submitQuiz s).maxUnlockedLevel = s.maxUnlockedLevel)
    ∧ (60 ≤ s.quizScore →
        handleFinishQuiz s = unlockLevel .APPLICATION s
        ∧ Level.APPLICATION.toNat ≤ (handleFinishQuiz s).maxUnlockedLevel.toNat)
    ∧ (s.quizScore < 60 →
        handleFinishQuiz s
            = { s with alerts :=
                "You must score at least 60% to proceed. Review the flashcards and try again."
                  :: s.alerts }
        ∧ (handleFinishQuiz s).maxUnlockedLevel = s.maxUnlockedLevel) := by
  refine ⟨?_, ?_, ?_⟩
  · intro h
    have hlt : ¬ (s.quizAnswers.length < s.quizQuestions.length) := by omega
    unfold submitQuiz
    rw [if_neg hlt]
    exact ⟨rfl, rfl, rfl⟩
  · intro h
    refine ⟨by unfold handleFinishQuiz; rw [if_pos h], ?_⟩
    rw [show handleFinishQuiz s = unlockLevel .APPLICATION s from by unfold handleFinishQuiz; rw [if_pos h]]
    rw [unlockLevel_max_eq]
    split
    · exact le_rfl
    · omega
  · intro h
    have h' : ¬ (60 ≤ s.quizScore) := by exact not_le.mpr h
    unfold handleFinishQuiz
    rw [if_neg h']
    exact ⟨rfl, rfl⟩

end CourseViewer

theorem quiz_gating_witness :
    witQuizState.quizQuestions.length ≤ witQuizState.quizAnswers.length
    ∧ (CourseViewer.submitQuiz witQuizState).quizScore = (200 / 3 : ℚ)
    ∧ (CourseViewer.submitQuiz witQuizState).quizSubmitted = true
    ∧ (60 : ℚ) ≤ (200 / 3 : ℚ)
    ∧ CourseViewer.handleFinishQuiz { witQuizState with quizScore := 70 }
        = CourseViewer.unlockLevel .APPLICATION { witQuizState with quizScore := 70 }
    ∧ CourseViewer.handleFinishQuiz { witQuizState with quizScore := 50 }
        = { ({ witQuizState with quizScore := 50 } : CourseViewer.State) with alerts :=
            "You must score at least 60% to proceed. Review the flashcards and try again."
              :: ({ witQuizState with quizScore := 50 } : CourseViewer.State).alerts } := by
  refine ⟨by decide, ?_, ?_, by norm_num, ?_, ?_⟩
  · have h := ((CourseViewer.quiz_gating witQuizState).1 (by decide)).1
    rw [h]
    have hc : (witQuizState.quizQuestions.enum.countP fun iq =>
        witQuizState.quizAnswers.getD iq.1 none == some iq.2.answer) = 2 := by decide
    rw [hc]
    have hl : witQuizState.quizQuestions.length = 3 := by decide
    rw [hl]
    norm_num
  · exact ((CourseViewer.quiz_gating witQuizState).1 (by decide)).2.1
  · exact ((CourseViewer.quiz_gating { witQuizState with quizScore := 70 }).2.1 (by norm_num)).1
  · exact ((CourseViewer.quiz_gating { witQuizState with quizScore := 50 }).2.2 (by norm_num)).1

/-! ### Claim theorems: calculus curriculum answer gating -/

/-- C4: on every curriculum step that defines a question, checkAnswer turns
feedback correct exactly when the trimmed input equals the step's
correctAnswer string, and the Next button is enabled exactly when feedback
is correct. -/
theorem checkAnswer_exact_match (step : Step) (hmem : step ∈ calculusSteps)
    (hq : step.question.isSome = true) :
    (∀ (input : String) (fb : Feedback),
        checkAnswer step input fb = .correct ↔ step.correctAnswer = some (strTrim input))
    ∧ (∀ fb : Feedback, nextDisabled step fb = false ↔ fb = .correct) := by
  have key : ∀ s ∈ calculusSteps, s.question.isSome = true →
      (s.correctAnswer.isSome = true ∧ s.correctAnswer ≠ some "") := by decide
  obtain ⟨a, ha⟩ := Option.isSome_iff_exists.mp (key step hmem hq).1
  have hne : a ≠ "" := by
    intro e
    exact (key step hmem hq).2 (by rw [ha, e])
  constructor
  · intro input fb
    unfold checkAnswer
    rw [ha]
    rw [show (match some a with
        | none => fb
        | some a => if a = "" then fb else if strTrim input = a then Feedback.correct else Feedback.wrong)
        = (if a = "" then fb else if strTrim input = a then Feedback.correct else Feedback.wrong) from rfl]
    rw [if_neg hne]
    constructor
    · intro h
      by_cases ht : strTrim input = a
      · rw [ht]
      · rw [if_neg ht] at h
        exact absurd h (by simp)
    · intro h
      have h2 : a = strTrim input := Option.some.inj h
      rw [if_pos h2.symm]
  · intro fb
    unfold nextDisabled
    rw [hq]
    cases fb <;> simp

theorem checkAnswer_exact_match_witness :
    (calculusSteps.getD 2 default) ∈ calculusSteps
    ∧ (calculusSteps.getD 2 default).question.isSome = true
    ∧ (checkAnswer (calculusSteps.getD 2 default) " 2.1 " .neutral = .correct
        ↔ (calculusSteps.getD 2 default).correctAnswer = some (strTrim " 2.1 "))
    ∧ (nextDisabled (calculusSteps.getD 2 default) .wrong = false ↔ Feedback.wrong = Feedback.correct) := by
  refine ⟨by decide, by decide, ?_, ?_⟩
  · exact (checkAnswer_exact_match _ (by decide) (by decide)).1 " 2.1 " .neutral
  · exact (checkAnswer_exact_match _ (by decide) (by decide)).2 .wrong

/-! ### Claim theorems: the Socratic round -/

namespace SocialPage

theorem other_other (r : Role) : r.other.other = r := by
  cases r <;> rfl

theorem roleAfter_other (r : Role) (n : Nat) :
    roleAfter (Role.other r) n = roleAfter r (n + 1) := by
  unfold roleAfter
  have h : n % 2 = 0 ∨ n % 2 = 1 := by omega
  rcases h with h | h
  · have h2 : (n + 1) % 2 = 1 := by omega
    simp [h, h2]
  · have h2 : (n + 1) % 2 = 0 := by omega
    simp [h, h2, other_other]

theorem altRoles_append (m : List Msg) : ∀ (l : List Msg) (r : Role),
    altRoles r (l ++ m) = (altRoles r l && altRoles (roleAfter r l.length) m) := by
  intro l
  induction l with
  | nil =>
      intro r
      simp [altRoles, roleAfter]
  | cons x l ih =>
      intro r
      simp only [List.cons_append, altRoles, List.length_cons, List.append_eq]
      rw [ih (Role.other r), roleAfter_other]
      simp [Bool.and_assoc]

theorem socratic_step (opening a r : String) (j : JudgeResult) (st : State) (n : Nat)
    (ha : strTrim a ≠ "") (h : SocInv opening n st) :
    SocInv opening (n + 1) (submitSocraticAnswer a r j st) := by
  obtain ⟨h1, h2, h3, h4, h5, h6⟩ := h
  by_cases hn : n < 3
  · have hact : st.battleState = .active := by rw [h6, if_pos hn]
    have ht : st.socraticTurn = n + 1 := by rw [h3]; omega
    have hlen : st.socraticHistory.length = 2 * n + 1 := by rw [h5, if_pos hn]
    unfold submitSocraticAnswer
    rw [hact]
    rw [if_neg (by simp)]
    rw [if_neg ha]
    rw [ht]
    by_cases h23 : n + 1 < 3
    · rw [if_pos h23]
      refine ⟨?_, ?_, ?_, ?_, ?_, ?_⟩
      · simp only [List.append_assoc]
        rw [altRoles_append]
        rw [h1, hlen]
        have hodd : roleAfter Role.skeptic (2 * n + 1) = Role.user := by
          unfold roleAfter Role.other
          have : (2 * n + 1) % 2 = 1 := by omega
          simp [this]
        rw [hodd]
        simp [altRoles, Role.other]
      · simp only [List.append_assoc]
        rw [List.head?_append, h2]
        rfl
      · simp only []
        omega
      · simp only []
        rw [h4]
        rw [if_neg (by omega), if_neg (by omega)]
      · simp only [List.append_assoc, List.length_append, hlen]
        rw [if_pos (by omega : n + 1 < 3)]
        simp
        omega
      · simp only []
        rw [if_pos (by omega : n + 1 < 3)]
    · rw [if_neg h23]
      refine ⟨?_, ?_, ?_, ?_, ?_, ?_⟩
      · rw [altRoles_append]
        rw [h1, hlen]
        have hodd : roleAfter Role.skeptic (2 * n + 1) = Role.user := by
          unfold roleAfter Role.other
          have : (2 * n + 1) % 2 = 1 := by omega
          simp [this]
        rw [hodd]
        simp [altRoles]
      · rw [List.head?_append, h2]
        rfl
      · simp only []
        omega
      · simp only []
        rw [h4]
        rw [if_neg (by omega : ¬ (3 ≤ n)), if_pos (by omega : 3 ≤ n + 1)]
      · simp only [List.length_append, hlen]
        rw [if_neg (by omega : ¬ (n + 1 < 3))]
        simp
        omega
      · simp only []
        rw [if_neg (by omega : ¬ (n + 1 < 3))]
  · have hres : st.battleState = .results := by rw [h6, if_neg hn]
    unfold submitSocraticAnswer
    rw [hres]
    rw [if_pos (by simp)]
    refine ⟨h1, h2, ?_, ?_, ?_, ?_⟩
    · rw [h3]; omega
    · rw [h4]
      rw [if_pos (by omega : 3 ≤ n), if_pos (by omega : 3 ≤ n + 1)]
    · rw [h5]
      rw [if_neg (by omega : ¬ (n < 3)), if_neg (by omega : ¬ (n + 1 < 3))]
    · rw [h6]
      rw [if_neg (by omega : ¬ (n < 3)), if_neg (by omega : ¬ (n + 1 < 3))]

theorem socratic_fold (opening : String) :
    ∀ (subs : List (String × String × JudgeResult)) (st : State) (n : Nat),
      (∀ x ∈ subs, strTrim x.1 ≠ "") → SocInv opening n st →
      SocInv opening (n + subs.length)
        (subs.foldl (fun st sub => submitSocraticAnswer sub.1 sub.2.1 sub.2.2 st) st) := by
  intro subs
  induction subs with
  | nil =>
      intro st n _ h
      simpa using h
  | cons x xs ih =>
      intro st n hne h
      simp only [List.foldl_cons, List.length_cons]
      have hstep := socratic_step opening x.1 x.2.1 x.2.2 st n (hne x (by simp)) h
      have := ih (submitSocraticAnswer x.1 x.2.1 x.2.2 st) (n + 1)
        (fun y hy => hne y (by simp [hy])) hstep
      rw [show n + (xs.length + 1) = n + 1 + xs.length by omega]
      exact this

/-- C5: a Socratic round started with the skeptic's opening keeps the
history alternating skeptic/user from that opening, advances the turn
counter by one per accepted user submission capped at 3, and invokes the
judge exactly once, immediately after the third submission and never
before. -/
theorem socratic_round_spec (opening : String) (s : State)
    (subs : List (String × String × JudgeResult))
    (hne : ∀ x ∈ subs, strTrim x.1 ≠ "") :
    altRoles .skeptic (runSocratic opening s subs).socraticHistory = true
    ∧ (runSocratic opening s subs).socraticHistory.head?
        = some { role := Role.skeptic, text := opening }
    ∧ (runSocratic opening s subs).socraticTurn = min (subs.length + 1) 3
    ∧ (runSocratic opening s subs).judgeCalls = (if 3 ≤ subs.length then 1 else 0)
    ∧ (runSocratic opening s subs).socraticHistory.length
        = (if subs.length < 3 then 2 * subs.length + 1 else 6)
    ∧ (runSocratic opening s subs).battleState
        = (if subs.length < 3 then BattleState.active else BattleState.results) := by
  have h0 : SocInv opening 0 (startSocraticRound opening s) := by
    unfold SocInv startSocraticRound
    refine ⟨by simp [altRoles, Role.other], rfl, rfl, rfl, rfl, rfl⟩
  have h := socratic_fold opening subs (startSocraticRound opening s) 0 hne h0
  rw [Nat.zero_add] at h
  exact h

theorem socratic_round_spec_witness :
    (∀ x ∈ ([("The limit is a bound.", "How close?", ⟨true, 80, "Fair."⟩),
             ("Arbitrarily close.", "Does it touch?", ⟨true, 85, "Sharper."⟩),
             ("It never needs to.", "Hmm.", ⟨true, 90, "Granted."⟩)] :
        List (String × String × JudgeResult)), strTrim x.1 ≠ "")
    ∧ (runSocratic "Defend the limit." ({} : State)
        [("The limit is a bound.", "How close?", ⟨true, 80, "Fair."⟩),
         ("Arbitrarily close.", "Does it touch?", ⟨true, 85, "Sharper."⟩),
         ("It never needs to.", "Hmm.", ⟨true, 90, "Granted."⟩)]).judgeCalls
        = (if 3 ≤ (3 : Nat) then 1 else 0)
    ∧ (runSocratic "Defend the limit." ({} : State)
        [("The limit is a bound.", "How close?", ⟨true, 80, "Fair."⟩),
         ("Arbitrarily close.", "Does it touch?", ⟨true, 85, "Sharper."⟩),
         ("It never needs to.", "Hmm.", ⟨true, 90, "Granted."⟩)]).socraticTurn = min (3 + 1) 3 := by
  have hne : ∀ x ∈ ([("The limit is a bound.", "How close?", ⟨true, 80, "Fair."⟩),
             ("Arbitrarily close.", "Does it touch?", ⟨true, 85, "Sharper."⟩),
             ("It never needs to.", "Hmm.", ⟨true, 90, "Granted."⟩)] :
        List (String × String × JudgeResult)), strTrim x.1 ≠ "" := by decide
  have h := socratic_round_spec "Defend the limit." ({} : State)
    [("The limit is a bound.", "How close?", ⟨true, 80, "Fair."⟩),
     ("Arbitrarily close.", "Does it touch?", ⟨true, 85, "Sharper."⟩),
     ("It never needs to.", "Hmm.", ⟨true, 90, "Granted."⟩)] hne
  exact ⟨hne, h.2.2.2.1, h.2.2.1⟩

end SocialPage

/-! ### Claim theorems: Gemini service fallbacks and the JSON store -/

/-- C6: when the remote generate call fails (the catch path), every exported
generation operation resolves to its local fallback value instead of
rejecting: null for the media and parsed-object generators
(generateCoverImage, generateCourseContent, personalizeFlashcards,
generateCalculusProblem, generateVideoIntro, generateSpeech), the empty
array for generateQuiz, canned text for the prose generators, score 50 with
placeholder feedback for every answer in judgeBattleRound, and a failed
zero-score verdict for judgeSocraticRound; startNumericalRound surfaces a
null generateCalculusProblem result as lobby-state alert text. -/
theorem gemini_failure_fallbacks :
    (∀ d, generateCoverImage true d = none)
    ∧ (∀ t, generateCourseContent true t = none)
    ∧ (∀ t p, generateQuiz true t p = [])
    ∧ (∀ t p, personalizeFlashcards true t p = none)
    ∧ (∀ t, generateApplicationInsight true t = "Could not retrieve application data.")
    ∧ (∀ t, generateDeepDive true t = "Could not retrieve deep dive data.")
    ∧ (∀ topic t, generateBattleRound topic true t = "Discuss the implications of " ++ topic ++ ".")
    ∧ (∀ t, simulateOpponentTurn true t = "An interesting point.")
    ∧ (∀ t p answers, judgeBattleRound true t p answers
        = answers.map fun a => { user := a.user, score := 50, feedback := "The wind whispers silence." })
    ∧ (∀ t, generateSocraticChallenge true t = "Why does this concept exist?")
    ∧ (∀ t, simulateSkepticTurn true t = "I remain unconvinced. Try again.")
    ∧ (∀ t p, judgeSocraticRound true t p = { pass := false, score := 0, feedback := "The defense collapsed." })
    ∧ (∀ t p, generateCalculusProblem true t p = none)
    ∧ (∀ u, generateVideoIntro true u = none)
    ∧ (∀ d, generateSpeech true d = none)
    ∧ (∀ s : SocialPage.State, SocialPage.startNumericalRound none s
        = { s with battleState := .lobby, mathProblem := none, selectedOption := none,
                   mathFeedback := none,
                   alerts := "The archives are silent on this topic right now." :: s.alerts }) := by
  refine ⟨fun d => rfl, fun t => rfl, fun t p => rfl, fun t p => rfl, fun t => rfl, fun t => rfl,
    fun topic t => rfl, fun t => rfl, fun t p answers => rfl, fun t => rfl, fun t => rfl,
    fun t p => rfl, fun t p => rfl, fun u => rfl, fun d => rfl, fun s => rfl⟩

/-- C7: the localStorage wrapper round-trips JSON records: db.get after
db.save(key, v) returns a value structurally equal to v; db.get is total,
returning null for an absent key, and null rather than an error when the
stored text is not JSON (here the concrete non-JSON text "not json"). -/
theorem db_json_round_trip :
    (∀ (store : Store) (key : String) (v : JValue), dbGet (dbSave store key v) key = some v)
    ∧ (∀ (store : Store) (key : String), store key = none → dbGet store key = none)
    ∧ (∀ (store : Store) (key : String),
        dbGet (fun k => if k = key then some "not json" else store k) key = none) := by
  refine ⟨?_, ?_, ?_⟩
  · intro store key v
    unfold dbGet dbSave
    rw [if_pos rfl]
    rw [show (match some (jsonStringify v) with
        | none => none
        | some data => if data = "" then none else jsonParse data)
        = (if jsonStringify v = "" then none else jsonParse (jsonStringify v)) from rfl]
    rw [if_neg (jsonStringify_ne_empty v)]
    exact jsonParse_stringify v
  · intro store key h
    unfold dbGet
    rw [h]
  · intro store key
    unfold dbGet
    rw [show (fun k => if k = key then some "not json" else store k) key = some "not json" from by simp]
    rfl

theorem db_json_round_trip_witness :
    dbGet (fun _ => none) "lumi_db_courses" = none
    ∧ dbGet (dbSave (fun _ => none) "lumi_db_courses"
        (.jarr [.jobj [("id", .jstr "my-course"), ("likes", .jarr [.jstr "a"])]]))
        "lumi_db_courses"
      = some (.jarr [.jobj [("id", .jstr "my-course"), ("likes", .jarr [.jstr "a"])]])
    ∧ dbGet (fun k => if k = "lumi_db_courses" then some "not json" else none) "lumi_db_courses"
      = none :=
  ⟨db_json_round_trip.2.1 (fun _ => none) "lumi_db_courses" rfl,
   db_json_round_trip.1 (fun _ => none) "lumi_db_courses"
     (.jarr [.jobj [("id", .jstr "my-course"), ("likes", .jarr [.jstr "a"])]]),
   db_json_round_trip.2.2 (fun _ => none) "lumi_db_courses"⟩
